import Mathlib

/-
A verification development for the Neverball physics core
(`share/solid_phys.c`): a shallow embedding of the swept-sphere
collision engine, the body/path motion model, the switch state machine
and the step orchestrator, together with proofs and refutations of its
specified properties.

Modelling conventions.
C `float` arithmetic is embedded as exact real arithmetic (`ℝ`).
The two places where C float semantics would produce a NaN/infinity that
downstream comparisons treat as "no contact" are embedded as the
explicit no-contact sentinel `LARGE`; each such place carries a comment.
The vector/matrix primitives (`vec3.h`) and the `solid.h` data
structures are not part of the given source tree; they are modelled from
the spec (sections 3 and 4.1: closed-form 3-D vector ops, the data
model) and from their uses in `solid_phys.c`.
-/

noncomputable section

open Classical

/-- A 3-D vector, the `float v[3]` of the source. -/
abbrev Vec3 : Type := ℝ × ℝ × ℝ

/-- Modelled from the spec: `v_dot` of vec3.h, the Euclidean dot product. -/
def v_dot (a b : Vec3) : ℝ := a.1 * b.1 + a.2.1 * b.2.1 + a.2.2 * b.2.2

/-- Modelled from the spec: `v_add` of vec3.h, componentwise sum. -/
def v_add (a b : Vec3) : Vec3 := (a.1 + b.1, a.2.1 + b.2.1, a.2.2 + b.2.2)

/-- Modelled from the spec: `v_sub` of vec3.h, componentwise difference. -/
def v_sub (a b : Vec3) : Vec3 := (a.1 - b.1, a.2.1 - b.2.1, a.2.2 - b.2.2)

/-- Modelled from the spec: `v_scl` of vec3.h, scalar multiple. -/
def v_scl (a : Vec3) (k : ℝ) : Vec3 := (a.1 * k, a.2.1 * k, a.2.2 * k)

/-- Modelled from the spec: `v_mad` of vec3.h, `p + v * k`. -/
def v_mad (p v : Vec3) (k : ℝ) : Vec3 :=
  (p.1 + v.1 * k, p.2.1 + v.2.1 * k, p.2.2 + v.2.2 * k)

/-- Modelled from the spec: `v_crs` of vec3.h, the cross product. -/
def v_crs (a b : Vec3) : Vec3 :=
  (a.2.1 * b.2.2 - a.2.2 * b.2.1,
   a.2.2 * b.1 - a.1 * b.2.2,
   a.1 * b.2.1 - a.2.1 * b.1)

/-- Modelled from the spec: `v_len` of vec3.h, the Euclidean length. -/
def v_len (a : Vec3) : ℝ := Real.sqrt (v_dot a a)

/-- Modelled from the spec: `v_nrm` of vec3.h, normalization `v / |v|`. -/
def v_nrm (a : Vec3) : Vec3 := v_scl a (1 / v_len a)

/-- The zero vector. -/
def vzero : Vec3 := (0, 0, 0)

/-- The `LARGE` no-contact sentinel of solid_phys.c (`1.0e+5f`). -/
def LARGE : ℝ := 100000

/-- Smoothstep easing `erp` of solid_phys.c: `3t² − 2t³`. -/
def erp (t : ℝ) : ℝ := 3 * t * t - 2 * t * t * t

/-- Easing derivative `derp` of solid_phys.c: `6t − 6t²`. -/
def derp (t : ℝ) : ℝ := 6 * t - 6 * t * t

/- Algebraic facts about the vector primitives, used throughout. -/

theorem vdot_comm (a b : Vec3) : v_dot a b = v_dot b a := by
  simp only [v_dot]; ring

theorem vdot_self_nonneg (a : Vec3) : 0 ≤ v_dot a a := by
  simp only [v_dot]; nlinarith [sq_nonneg a.1, sq_nonneg a.2.1, sq_nonneg a.2.2]

theorem vdot_self_eq_zero (a : Vec3) (h : v_dot a a = 0) : a = vzero := by
  simp only [v_dot] at h
  have h1 : a.1 = 0 := by nlinarith [sq_nonneg a.1, sq_nonneg a.2.1, sq_nonneg a.2.2]
  have h2 : a.2.1 = 0 := by nlinarith [sq_nonneg a.1, sq_nonneg a.2.1, sq_nonneg a.2.2]
  have h3 : a.2.2 = 0 := by nlinarith [sq_nonneg a.1, sq_nonneg a.2.1, sq_nonneg a.2.2]
  simp only [vzero]
  exact Prod.ext h1 (Prod.ext h2 h3)

theorem vdot_sub_left (a b c : Vec3) :
    v_dot (v_sub a b) c = v_dot a c - v_dot b c := by
  simp only [v_dot, v_sub]; ring

theorem vdot_add_left (a b c : Vec3) :
    v_dot (v_add a b) c = v_dot a c + v_dot b c := by
  simp only [v_dot, v_add]; ring

theorem vdot_mad_left (p v : Vec3) (k : ℝ) (c : Vec3) :
    v_dot (v_mad p v k) c = v_dot p c + k * v_dot v c := by
  simp only [v_dot, v_mad]; ring

theorem vmad_zero (p : Vec3) (k : ℝ) : v_mad p vzero k = p := by
  simp only [v_mad, vzero, zero_mul, add_zero]

/-- Cauchy–Schwarz for the 3-D dot product (Lagrange identity form). -/
theorem vdot_sq_le (a b : Vec3) : v_dot a b ^ 2 ≤ v_dot a a * v_dot b b := by
  simp only [v_dot]
  nlinarith [sq_nonneg (a.1 * b.2.1 - a.2.1 * b.1),
             sq_nonneg (a.1 * b.2.2 - a.2.2 * b.1),
             sq_nonneg (a.2.1 * b.2.2 - a.2.2 * b.2.1)]

/--
The swept-sphere quadratic solver `v_sol` of solid_phys.c: the earliest
intersection time of `|P + V t| = r`, via `a t² + b t + c = 0` with
`a = V·V`, `b = 2 V·P`, `c = P·P − r²`.
When `a = 0` (thus, over the reals, also `b = 0` and discriminant `0`),
the C code computes `-b * 0.5f / a = 0/0`, a NaN; every downstream
comparison on a NaN fails, so the call site behaves exactly as if the
no-contact sentinel had been returned.  That degenerate branch is
embedded as the sentinel `LARGE` directly.
-/
def v_sol (p v : Vec3) (r : ℝ) : ℝ :=
  let a := v_dot v v
  let b := v_dot v p * 2
  let c := v_dot p p - r * r
  let d := b * b - 4 * a * c
  if d < 0 then LARGE
  else if 0 < d then
    let t0 := 0.5 * (-b - Real.sqrt d) / a
    let t1 := 0.5 * (-b + Real.sqrt d) / a
    let t := if t0 < t1 then t0 else t1
    if t < 0 then LARGE else t
  else if a = 0 then LARGE
  else -b * 0.5 / a

/-- In the positive-discriminant branch the leading coefficient is
positive: over the reals `V·V = 0` forces `V = 0` and hence a zero
discriminant. -/
theorem v_sol_lead_pos (p v : Vec3) (r : ℝ)
    (hd : 0 < (v_dot v p * 2) * (v_dot v p * 2) - 4 * v_dot v v * (v_dot p p - r * r)) :
    0 < v_dot v v := by
  rcases lt_or_eq_of_le (vdot_self_nonneg v) with h | h
  · exact h
  · exfalso
    have hv : v = vzero := vdot_self_eq_zero v h.symm
    rw [hv] at hd
    simp only [v_dot, vzero] at hd h
    nlinarith

/-- Root check for the quadratic formula with an explicit square root
witness `s` satisfying `s² = b² − 4ac`. -/
theorem quad_root_formula (A B C s : ℝ) (hA : A ≠ 0) (hs : s ^ 2 = B * B - 4 * A * C) :
    A * (0.5 * (-B - s) / A) ^ 2 + B * (0.5 * (-B - s) / A) + C = 0 ∧
    A * (0.5 * (-B + s) / A) ^ 2 + B * (0.5 * (-B + s) / A) + C = 0 := by
  constructor
  · field_simp
    linear_combination 0.25 * A ^ 2 * hs
  · field_simp
    linear_combination 0.25 * A ^ 2 * hs

/-- Root check for the tangent (zero-discriminant) root. -/
theorem quad_root_tangent (A B C : ℝ) (hA : A ≠ 0) (hd : B * B - 4 * A * C = 0) :
    A * (-B * 0.5 / A) ^ 2 + B * (-B * 0.5 / A) + C = 0 := by
  field_simp
  linear_combination (-(0.25) * A ^ 2) * hd

/-- Any non-sentinel value returned by `v_sol` is a genuine root of the
quadratic `a t² + b t + c`. -/
theorem v_sol_root (p v : Vec3) (r : ℝ) (h : v_sol p v r ≠ LARGE) :
    v_dot v v * (v_sol p v r) ^ 2 + (v_dot v p * 2) * v_sol p v r +
      (v_dot p p - r * r) = 0 := by
  simp only [v_sol] at h ⊢
  split_ifs at h ⊢ with h1 h2 h3 h4 h5 h6
  · exact absurd rfl h
  · exact absurd rfl h
  · have hapos : 0 < v_dot v v := v_sol_lead_pos p v r h2
    have hs : Real.sqrt ((v_dot v p * 2) * (v_dot v p * 2) -
        4 * v_dot v v * (v_dot p p - r * r)) ^ 2 =
        (v_dot v p * 2) * (v_dot v p * 2) - 4 * v_dot v v * (v_dot p p - r * r) :=
      Real.sq_sqrt h2.le
    exact (quad_root_formula _ _ _ _ (ne_of_gt hapos) hs).1
  · exact absurd rfl h
  · have hapos : 0 < v_dot v v := v_sol_lead_pos p v r h2
    have hs : Real.sqrt ((v_dot v p * 2) * (v_dot v p * 2) -
        4 * v_dot v v * (v_dot p p - r * r)) ^ 2 =
        (v_dot v p * 2) * (v_dot v p * 2) - 4 * v_dot v v * (v_dot p p - r * r) :=
      Real.sq_sqrt h2.le
    exact (quad_root_formula _ _ _ _ (ne_of_gt hapos) hs).2
  · exact absurd rfl h
  · have hd0 : (v_dot v p * 2) * (v_dot v p * 2) -
        4 * v_dot v v * (v_dot p p - r * r) = 0 := le_antisymm (not_lt.1 h2) (not_lt.1 h1)
    exact quad_root_tangent _ _ _ h6 hd0

/-- When the sphere is approaching (`V·P < 0`), a non-sentinel `v_sol`
value is non-negative. -/
theorem v_sol_nonneg (p v : Vec3) (r : ℝ) (h : v_sol p v r ≠ LARGE)
    (happ : v_dot v p < 0) : 0 ≤ v_sol p v r := by
  simp only [v_sol] at h ⊢
  split_ifs at h ⊢ with h1 h2 h3 h4 h5 h6
  · exact absurd rfl h
  · exact absurd rfl h
  · exact not_lt.1 h4
  · exact absurd rfl h
  · exact not_lt.1 h5
  · exact absurd rfl h
  · have hapos : 0 < v_dot v v := lt_of_le_of_ne (vdot_self_nonneg v) (Ne.symm h6)
    apply div_nonneg (by linarith) hapos.le

/-- The discriminant computed inside `v_sol` (`d = b² − 4ac`). -/
def v_sol_disc (p v : Vec3) (r : ℝ) : ℝ :=
  v_dot v p * 2 * (v_dot v p * 2) - 4 * v_dot v v * (v_dot p p - r * r)

/-- The smaller quadratic-formula root computed inside `v_sol`
(`t0 = (−b − √d) / 2a`). -/
def v_sol_minroot (p v : Vec3) (r : ℝ) : ℝ :=
  0.5 * (-(v_dot v p * 2) - Real.sqrt (v_sol_disc p v r)) / v_dot v v

/-- The swept-sphere quadratic `a t² + b t + c` evaluated at time `t`. -/
def v_sol_quad (p v : Vec3) (r t : ℝ) : ℝ :=
  v_dot v v * t ^ 2 + v_dot v p * 2 * t + (v_dot p p - r * r)

/-- Factorization of the quadratic: any root equals one of the two
quadratic-formula roots. -/
theorem quad_roots_eq (A B C s x : ℝ) (hA : A ≠ 0) (hs : s ^ 2 = B * B - 4 * A * C)
    (hx : A * x ^ 2 + B * x + C = 0) :
    x = 0.5 * (-B - s) / A ∨ x = 0.5 * (-B + s) / A := by
  have hfac : A * ((x - 0.5 * (-B - s) / A) * (x - 0.5 * (-B + s) / A)) = 0 := by
    have hident : A * ((x - 0.5 * (-B - s) / A) * (x - 0.5 * (-B + s) / A))
        = (A * x ^ 2 + B * x + C) - (s ^ 2 - (B * B - 4 * A * C)) / (4 * A) := by
      field_simp
      ring
    rw [hident, hx, hs]
    simp
  rcases mul_eq_zero.1 hfac with h | h
  · exact absurd h hA
  · rcases mul_eq_zero.1 h with h' | h'
    · left; linarith [sub_eq_zero.1 h']
    · right; linarith [sub_eq_zero.1 h']

/--
Claim C2 (amended): the policy of the swept-sphere quadratic solver
`v_sol` with `a = V·V`, `b = 2 V·P`, `c = P·P − r²`:
a negative discriminant returns the no-contact sentinel; a positive
discriminant returns the smaller root when it is non-negative (then it
is a true root and a lower bound for every root of the quadratic) and
the sentinel when the smaller root is negative; a zero discriminant
with a non-degenerate leading coefficient returns the tangent root
`−b/(2a)` unconditionally — including when that root is negative (see
the counterexample); a zero leading coefficient returns the sentinel.
-/
theorem v_sol_policy (p v : Vec3) (r : ℝ) :
    (v_sol_disc p v r < 0 → v_sol p v r = LARGE) ∧
    (0 < v_sol_disc p v r →
      (v_sol_minroot p v r < 0 → v_sol p v r = LARGE) ∧
      (0 ≤ v_sol_minroot p v r →
        v_sol p v r = v_sol_minroot p v r ∧
        v_sol_quad p v r (v_sol_minroot p v r) = 0 ∧
        ∀ x : ℝ, v_sol_quad p v r x = 0 → v_sol_minroot p v r ≤ x)) ∧
    (v_sol_disc p v r = 0 → v_dot v v ≠ 0 →
      v_sol p v r = -(v_dot v p * 2) * 0.5 / v_dot v v) ∧
    (v_dot v v = 0 → v_sol p v r = LARGE) := by
  refine ⟨?_, ?_, ?_, ?_⟩
  · intro h1
    simp only [v_sol_disc] at h1
    simp only [v_sol, if_pos h1]
  · intro h2
    simp only [v_sol_disc] at h2
    have h1 : ¬ (v_dot v p * 2 * (v_dot v p * 2) -
        4 * v_dot v v * (v_dot p p - r * r) < 0) := not_lt.2 h2.le
    have hapos : 0 < v_dot v v := v_sol_lead_pos p v r h2
    have hspos : 0 < Real.sqrt (v_dot v p * 2 * (v_dot v p * 2) -
        4 * v_dot v v * (v_dot p p - r * r)) := Real.sqrt_pos.2 h2
    have ht01 : 0.5 * (-(v_dot v p * 2) - Real.sqrt (v_dot v p * 2 * (v_dot v p * 2) -
          4 * v_dot v v * (v_dot p p - r * r))) / v_dot v v <
        0.5 * (-(v_dot v p * 2) + Real.sqrt (v_dot v p * 2 * (v_dot v p * 2) -
          4 * v_dot v v * (v_dot p p - r * r))) / v_dot v v := by
      refine (div_lt_div_iff_of_pos_right hapos).2 (by nlinarith)
    have hval : v_sol p v r =
        (if v_sol_minroot p v r < 0 then LARGE else v_sol_minroot p v r) := by
      simp only [v_sol, v_sol_minroot, v_sol_disc, if_neg h1, if_pos h2, if_pos ht01]
    have hs : Real.sqrt (v_dot v p * 2 * (v_dot v p * 2) -
        4 * v_dot v v * (v_dot p p - r * r)) ^ 2 =
        v_dot v p * 2 * (v_dot v p * 2) - 4 * v_dot v v * (v_dot p p - r * r) :=
      Real.sq_sqrt h2.le
    constructor
    · intro h3; rw [hval, if_pos h3]
    · intro h3
      refine ⟨by rw [hval, if_neg (not_lt.2 h3)], ?_, ?_⟩
      · have := (quad_root_formula (v_dot v v) (v_dot v p * 2)
          (v_dot p p - r * r) _ (ne_of_gt hapos) hs).1
        simpa [v_sol_quad, v_sol_minroot, v_sol_disc] using this
      · intro x hx
        simp only [v_sol_quad] at hx
        rcases quad_roots_eq (v_dot v v) (v_dot v p * 2) (v_dot p p - r * r) _ x
            (ne_of_gt hapos) hs hx with h | h
        · exact le_of_eq (by rw [v_sol_minroot, v_sol_disc, h])
        · have he : v_sol_minroot p v r =
              0.5 * (-(v_dot v p * 2) - Real.sqrt (v_dot v p * 2 * (v_dot v p * 2) -
                4 * v_dot v v * (v_dot p p - r * r))) / v_dot v v := by
            rw [v_sol_minroot, v_sol_disc]
          rw [he, h]; linarith [ht01]
  · intro hd0 hA
    simp only [v_sol_disc] at hd0
    have hn1 : ¬ (v_dot v p * 2 * (v_dot v p * 2) -
        4 * v_dot v v * (v_dot p p - r * r) < 0) := not_lt.2 hd0.ge
    have hn2 : ¬ (0 < v_dot v p * 2 * (v_dot v p * 2) -
        4 * v_dot v v * (v_dot p p - r * r)) := by
      rw [hd0]; exact lt_irrefl 0
    simp only [v_sol, if_neg hn1, if_neg hn2, if_neg hA]
  · intro hA0
    have hv : v = vzero := vdot_self_eq_zero v hA0
    subst hv
    simp [v_sol, v_dot, vzero]

/--
Claim C2 counterexample: at `P = (1,1,0)`, `V = (1,0,0)`, `r = 1` the
discriminant is zero and `v_sol` returns the tangent root `−1` — a
negative time, not the no-contact sentinel, refuting the clause "in
every case a negative root yields the no-contact sentinel".
-/
theorem v_sol_negative_counterexample :
    v_sol_disc ((1:ℝ), (1:ℝ), (0:ℝ)) ((1:ℝ), (0:ℝ), (0:ℝ)) 1 = 0 ∧
    v_sol ((1:ℝ), (1:ℝ), (0:ℝ)) ((1:ℝ), (0:ℝ), (0:ℝ)) 1 = -1 ∧
    v_sol ((1:ℝ), (1:ℝ), (0:ℝ)) ((1:ℝ), (0:ℝ), (0:ℝ)) 1 < 0 ∧
    v_sol ((1:ℝ), (1:ℝ), (0:ℝ)) ((1:ℝ), (0:ℝ), (0:ℝ)) 1 ≠ LARGE := by
  refine ⟨by norm_num [v_sol_disc, v_dot], ?_, ?_, ?_⟩ <;>
    norm_num [v_sol, v_dot, LARGE]

/-- Witness for C2: a concrete positive-discriminant instance, the
sphere at `(0,0,−3)` moving at `(0,0,1)` with radius `1`, where the
returned time is the smaller non-negative root `2`. -/
theorem v_sol_policy_witness :
    0 < v_sol_disc ((0:ℝ), (0:ℝ), (-3:ℝ)) ((0:ℝ), (0:ℝ), (1:ℝ)) 1 ∧
    0 ≤ v_sol_minroot ((0:ℝ), (0:ℝ), (-3:ℝ)) ((0:ℝ), (0:ℝ), (1:ℝ)) 1 ∧
    v_sol ((0:ℝ), (0:ℝ), (-3:ℝ)) ((0:ℝ), (0:ℝ), (1:ℝ)) 1 = 2 := by
  have hd : 0 < v_sol_disc ((0:ℝ), (0:ℝ), (-3:ℝ)) ((0:ℝ), (0:ℝ), (1:ℝ)) 1 := by
    norm_num [v_sol_disc, v_dot]
  have hdisc : v_sol_disc ((0:ℝ), (0:ℝ), (-3:ℝ)) ((0:ℝ), (0:ℝ), (1:ℝ)) 1 = 4 := by
    norm_num [v_sol_disc, v_dot]
  have hroot : v_sol_minroot ((0:ℝ), (0:ℝ), (-3:ℝ)) ((0:ℝ), (0:ℝ), (1:ℝ)) 1 = 2 := by
    rw [v_sol_minroot, hdisc, show (4:ℝ) = 2 ^ 2 by norm_num,
      Real.sqrt_sq (by norm_num : (0:ℝ) ≤ 2)]
    norm_num [v_dot]
  have hge : 0 ≤ v_sol_minroot ((0:ℝ), (0:ℝ), (-3:ℝ)) ((0:ℝ), (0:ℝ), (1:ℝ)) 1 := by
    rw [hroot]; norm_num
  have happ := ((v_sol_policy ((0:ℝ), (0:ℝ), (-3:ℝ)) ((0:ℝ), (0:ℝ), (1:ℝ)) 1).2.1 hd).2 hge
  exact ⟨hd, hge, by rw [happ.1, hroot]⟩

/-
The data model (`solid.h`), modelled from the spec, section 3.
Arrays become lists (with explicit defaults for the C's unchecked
indexing); the path store is a function store because the switch
broadcast writes it through arbitrary indices; the BSP node array is
embedded as its unfolded tree (the data-model invariant: "the node tree
is a valid binary tree over the level's lumps with no dangling child
indices"), with `nil` standing for a `-1` child index.
-/

/-- Modelled from the spec: a vertex (`struct s_vert`). -/
structure SVert where
  p : Vec3

/-- Modelled from the spec: an edge referencing two vertex indices
(`struct s_edge`). -/
structure SEdge where
  vi : ℕ
  vj : ℕ

/-- Modelled from the spec: a side plane, unit normal plus signed
distance (`struct s_side`). -/
structure SSide where
  n : Vec3
  d : ℝ

/-- Modelled from the spec: a convex lump (`struct s_lump`); `fl` is
true when the `L_DETAIL` (non-solid) flag is set. -/
structure SLump where
  fl : Bool
  v0 : ℕ
  vc : ℕ
  e0 : ℕ
  ec : ℕ
  s0 : ℕ
  sc : ℕ

/-- Modelled from the spec: the BSP node array unfolded into a tree
(`struct s_node`): splitting side index, lump range, fore/back
children; `nil` is a `-1` child index. -/
inductive SNode where
  | nil : SNode
  | mk (si : ℕ) (l0 : ℕ) (lc : ℕ) (fore : SNode) (back : SNode) : SNode
deriving DecidableEq

/-- Modelled from the spec: a path point (`struct s_path`): position,
segment duration `t`, successor index `pi`, enabled flag `f`, smooth
flag `s`. -/
structure SPath where
  p : Vec3
  t : ℝ
  pi : ℕ
  f : Bool
  s : Bool

/-- Modelled from the spec: a body (`struct s_body`): its BSP subtree
(the `ni` node index, unfolded per the node-validity invariant), path
index `pi` (−1 = no path), and local segment time `t`. -/
structure SBody where
  ni : SNode
  pi : ℤ
  t : ℝ

/-- Modelled from the spec: a switch (`struct s_swch`). -/
structure SSwch where
  p : Vec3
  r : ℝ
  pi : ℕ
  t0 : ℝ
  t : ℝ
  f0 : Bool
  f : Bool
  e : Bool
  i : Bool

/-- Modelled from the spec: a ball (`struct s_ball`): orientation basis
`e`, position, velocity, radius, angular velocity, pendulum basis `E`
and pendulum angular velocity `W`. -/
structure SBall where
  e : Vec3 × Vec3 × Vec3
  p : Vec3
  v : Vec3
  r : ℝ
  w : Vec3
  E : Vec3 × Vec3 × Vec3
  W : Vec3

/-- Modelled from the spec: an item (`struct s_item`): position and
type tag (`ITEM_NONE = 0` marks an empty slot). -/
structure SItem where
  p : Vec3
  t : ℕ

/-- The `ITEM_NONE` tag of solid.h. -/
def ITEM_NONE : ℕ := 0

/-- Modelled from the spec: the level aggregate (`struct s_file`);
counts (`vc`, `ec`, ...) are the list lengths, except the path count
`pc` which accompanies the function store `pv`. -/
structure SFile where
  vv : List SVert
  ev : List SEdge
  sv : List SSide
  iv : List ℕ
  lv : List SLump
  pv : ℕ → SPath
  pc : ℕ
  bv : List SBody
  xv : List SSwch
  uv : List SBall
  hv : List SItem

/-- Default records for out-of-range accesses (C reads past an array
end are undefined; the embedding returns these fixed values). -/
def defVert : SVert := ⟨vzero⟩

def defEdge : SEdge := ⟨0, 0⟩

def defSide : SSide := ⟨(1, 0, 0), 0⟩

def defLump : SLump := ⟨false, 0, 0, 0, 0, 0, 0⟩

def defBall : SBall := ⟨((1,0,0), (0,1,0), (0,0,1)), vzero, vzero, 1, vzero,
  ((1,0,0), (0,1,0), (0,0,1)), vzero⟩

def vertAt (fp : SFile) (i : ℕ) : SVert := fp.vv.getD i defVert

def edgeAt (fp : SFile) (i : ℕ) : SEdge := fp.ev.getD i defEdge

def sideAt (fp : SFile) (i : ℕ) : SSide := fp.sv.getD i defSide

def lumpAt (fp : SFile) (i : ℕ) : SLump := fp.lv.getD i defLump

def ivAt (fp : SFile) (i : ℕ) : ℕ := fp.iv.getD i 0

def ballAt (fp : SFile) (ui : ℕ) : SBall := fp.uv.getD ui defBall

/-- Path lookup through a body's signed path index. -/
def pathAt (fp : SFile) (i : ℤ) : SPath := fp.pv i.toNat

/--
`sol_body_v` of solid_phys.c: a body's current velocity from its path
segment; zero when the body has no path or its path point is disabled.
-/
def sol_body_v (fp : SFile) (bp : SBody) : Vec3 :=
  if 0 ≤ bp.pi ∧ (pathAt fp bp.pi).f then
    let pp := pathAt fp bp.pi
    let pq := fp.pv pp.pi
    let v0 := v_scl (v_sub pq.p pp.p) (1 / pp.t)
    if pp.s then v_scl v0 (derp (bp.t / pp.t)) else v0
  else vzero

/--
`sol_body_p` of solid_phys.c: a body's current position, interpolated
(eased or linear) along its current path segment.  Note: unlike
`sol_body_v`, the position does not test the path point's enabled flag.
-/
def sol_body_p (fp : SFile) (bp : SBody) : Vec3 :=
  if 0 ≤ bp.pi then
    let pp := pathAt fp bp.pi
    let pq := fp.pv pp.pi
    if pp.s then v_mad pp.p (v_sub pq.p pp.p) (erp (bp.t / pp.t))
    else v_mad pp.p (v_sub pq.p pp.p) (bp.t / pp.t)
  else vzero

/-- The per-body transition of `sol_body_step` of solid_phys.c:
advance the local segment time; on reaching the segment duration reset
it to zero and move to the successor path point. -/
def sol_body_step1 (fp : SFile) (dt : ℝ) (bp : SBody) : SBody :=
  let pp := pathAt fp bp.pi
  if 0 ≤ bp.pi ∧ pp.f then
    let t1 := bp.t + dt
    if pp.t ≤ t1 then { bp with t := 0, pi := (pp.pi : ℤ) }
    else { bp with t := t1 }
  else bp

/-- `sol_body_step` of solid_phys.c: advance every body by `dt`. -/
def sol_body_step (fp : SFile) (dt : ℝ) : SFile :=
  { fp with bv := fp.bv.map (sol_body_step1 fp dt) }

theorem vmad_k0 (p v : Vec3) : v_mad p v 0 = p := by
  simp [v_mad]

def cexPath0 : SPath := ⟨(0, 0, 0), 2, 1, false, false⟩

def cexPath1 : SPath := ⟨(4, 0, 0), 2, 0, false, false⟩

def cexBodyFile : SFile :=
  ⟨[], [], [], [], [], fun i => if i = 0 then cexPath0 else cexPath1, 2, [], [], [], []⟩

def cexBody : SBody := ⟨SNode.nil, 0, 1⟩

def cexBodyZero : SBody := ⟨SNode.nil, 0, 0⟩

def wPath0 : SPath := ⟨(0, 0, 0), 2, 1, true, false⟩

def wPath1 : SPath := ⟨(4, 0, 0), 3, 0, true, false⟩

def wBodyFile : SFile :=
  ⟨[], [], [], [], [], fun i => if i = 0 then wPath0 else wPath1, 2, [], [], [], []⟩

def wBody : SBody := ⟨SNode.nil, 0, 1⟩

/--
Claim C6 (amended): a body whose current path point is disabled
(`f` flag false) reports zero velocity, and its position is the
segment interpolation frozen at the body's current local time — which
coincides with the un-interpolated path-point reference position
exactly when that local time is zero (the position computation in
`sol_body_p`, unlike `sol_body_v`, never looks at the flag; see the
counterexample for a disabled body frozen mid-segment).
-/
theorem sol_body_disabled (fp : SFile) (bp : SBody)
    (hpi : 0 ≤ bp.pi) (hf : (pathAt fp bp.pi).f = false) :
    sol_body_v fp bp = vzero ∧
    (bp.t = 0 → sol_body_p fp bp = (pathAt fp bp.pi).p) := by
  constructor
  · simp [sol_body_v, hf]
  · intro ht0
    simp only [sol_body_p, if_pos hpi, ht0, zero_div, erp]
    split_ifs <;> norm_num [vmad_k0]

/--
Claim C6 counterexample: a body on path point 0 (disabled, reference
position the origin, duration 2) frozen at local time 1 on the segment
toward `(4,0,0)`: `sol_body_p` reports the mid-segment interpolation
`(2,0,0)`, not the reference position `(0,0,0)` stated by the claim.
-/
theorem sol_body_p_disabled_counterexample :
    (pathAt cexBodyFile cexBody.pi).f = false ∧
    sol_body_p cexBodyFile cexBody = ((2:ℝ), (0:ℝ), (0:ℝ)) ∧
    (pathAt cexBodyFile cexBody.pi).p = ((0:ℝ), (0:ℝ), (0:ℝ)) ∧
    sol_body_p cexBodyFile cexBody ≠ (pathAt cexBodyFile cexBody.pi).p := by
  have hp : sol_body_p cexBodyFile cexBody = ((2:ℝ), (0:ℝ), (0:ℝ)) := by
    norm_num [sol_body_p, cexBodyFile, cexBody, pathAt, cexPath0, cexPath1,
      v_mad, v_sub]
  have href : (pathAt cexBodyFile cexBody.pi).p = ((0:ℝ), (0:ℝ), (0:ℝ)) := rfl
  refine ⟨rfl, hp, href, ?_⟩
  rw [hp, href]
  norm_num [Prod.ext_iff]

/--
Claim C7: for a body with a valid path index, when every segment
duration is positive and the local time lies in `[0, current duration)`,
one `sol_body_step` transition with any `dt ≥ 0` keeps the local time
in `[0, duration of the then-current segment)`; and on reaching the
segment end (for an enabled path point) the local time resets to 0 and
the body's path index moves to the successor.
-/
theorem sol_body_step_invariant (fp : SFile) (dt : ℝ) (bp : SBody)
    (hdt : 0 ≤ dt) (hpi : 0 ≤ bp.pi)
    (hdur : ∀ i : ℕ, 0 < (fp.pv i).t)
    (ht : 0 ≤ bp.t ∧ bp.t < (pathAt fp bp.pi).t) :
    (0 ≤ (sol_body_step1 fp dt bp).t ∧
     (sol_body_step1 fp dt bp).t < (pathAt fp (sol_body_step1 fp dt bp).pi).t) ∧
    ((pathAt fp bp.pi).f = true → (pathAt fp bp.pi).t ≤ bp.t + dt →
      (sol_body_step1 fp dt bp).t = 0 ∧
      (sol_body_step1 fp dt bp).pi = ((pathAt fp bp.pi).pi : ℤ)) := by
  by_cases hf : (pathAt fp bp.pi).f = true
  · by_cases hth : (pathAt fp bp.pi).t ≤ bp.t + dt
    · have hstep : sol_body_step1 fp dt bp =
          { bp with t := 0, pi := ((pathAt fp bp.pi).pi : ℤ) } := by
        simp [sol_body_step1, hf, hpi, hth]
      rw [hstep]
      refine ⟨⟨le_refl 0, ?_⟩, fun _ _ => ⟨rfl, rfl⟩⟩
      simpa [pathAt] using hdur (pathAt fp bp.pi).pi
    · have hstep : sol_body_step1 fp dt bp = { bp with t := bp.t + dt } := by
        simp [sol_body_step1, hf, hpi, hth]
      rw [hstep]
      refine ⟨⟨?_, ?_⟩, fun _ h => absurd h hth⟩
      · show 0 ≤ bp.t + dt
        linarith [ht.1]
      · show bp.t + dt < (pathAt fp bp.pi).t
        exact not_le.1 hth
  · have hstep : sol_body_step1 fp dt bp = bp := by
      simp [sol_body_step1, hf]
    rw [hstep]
    exact ⟨ht, fun h _ => absurd h hf⟩

/-- Witness for C6: the disabled body of the counterexample at local
time zero, where the claim's reference position is reproduced. -/
theorem sol_body_disabled_witness :
    0 ≤ cexBodyZero.pi ∧ (pathAt cexBodyFile cexBodyZero.pi).f = false ∧
    sol_body_v cexBodyFile cexBodyZero = vzero ∧
    sol_body_p cexBodyFile cexBodyZero = (pathAt cexBodyFile cexBodyZero.pi).p := by
  have h1 : 0 ≤ cexBodyZero.pi := by norm_num [cexBodyZero]
  have h2 : (pathAt cexBodyFile cexBodyZero.pi).f = false := rfl
  have h := sol_body_disabled cexBodyFile cexBodyZero h1 h2
  exact ⟨h1, h2, h.1, h.2 rfl⟩

/-- Witness for C7: the enabled two-point path with durations 2 and 3,
body at local time 1, stepped by `dt = 1`: the step rolls over to path
point 1 with local time 0, inside `[0, 3)`. -/
theorem sol_body_step_invariant_witness :
    (0:ℝ) ≤ 1 ∧ 0 ≤ wBody.pi ∧ (∀ i : ℕ, 0 < (wBodyFile.pv i).t) ∧
    (0 ≤ wBody.t ∧ wBody.t < (pathAt wBodyFile wBody.pi).t) ∧
    (0 ≤ (sol_body_step1 wBodyFile 1 wBody).t ∧
     (sol_body_step1 wBodyFile 1 wBody).t <
       (pathAt wBodyFile (sol_body_step1 wBodyFile 1 wBody).pi).t) ∧
    (sol_body_step1 wBodyFile 1 wBody).pi = 1 := by
  have h1 : (0:ℝ) ≤ 1 := by norm_num
  have h2 : 0 ≤ wBody.pi := by norm_num [wBody]
  have h3 : ∀ i : ℕ, 0 < (wBodyFile.pv i).t := by
    intro i
    by_cases hi : i = 0 <;> simp [wBodyFile, hi, wPath0, wPath1]
  have h4 : 0 ≤ wBody.t ∧ wBody.t < (pathAt wBodyFile wBody.pi).t := by
    constructor <;> norm_num [wBody, wBodyFile, pathAt, wPath0]
  refine ⟨h1, h2, h3, h4,
    (sol_body_step_invariant wBodyFile 1 wBody h1 h2 h3 h4).1, ?_⟩
  have h5 := (sol_body_step_invariant wBodyFile 1 wBody h1 h2 h3 h4).2
  have h6 := h5 (by rfl) (by norm_num [wBody, wBodyFile, pathAt, wPath0])
  rw [h6.2]
  norm_num [wBody, wBodyFile, pathAt, wPath0]

/--
`v_vert` of solid_phys.c: earliest intersection time and position of
the sphere (radius `r`, from `p` along `v`) with a vertex at `q`
moving along `w` in a frame based at `o`.  The returned position is
meaningful only for a non-sentinel time (the C code leaves the output
parameter unwritten otherwise; the embedding returns `vzero`).
-/
def v_vert (o q w p v : Vec3) (r : ℝ) : ℝ × Vec3 :=
  let O := v_add o q
  let P := v_sub p O
  let V := v_sub v w
  if v_dot P V < 0 then
    let t := v_sol P V r
    if t < LARGE then (t, v_mad O w t) else (t, vzero)
  else (LARGE, vzero)

/--
`v_edge` of solid_phys.c: earliest intersection time and position of
the sphere with an edge from `q` along `u`, moving along `w` in a frame
based at `o`.  The interpolation parameter `s` along the edge must lie
strictly inside `(0,1)`.
-/
def v_edge (o q u w p v : Vec3) (r : ℝ) : ℝ × Vec3 :=
  let d := v_sub (v_sub p o) q
  let e := v_sub v w
  let du := v_dot d u
  let eu := v_dot e u
  let uu := v_dot u u
  let P := v_mad d u (-du / uu)
  let V := v_mad e u (-eu / uu)
  let t := v_sol P V r
  let s := (du + eu * t) / uu
  if 0 ≤ t ∧ t < LARGE ∧ 0 < s ∧ s < 1 then
    (t, v_add (v_mad q u s) (v_mad o w t))
  else (LARGE, vzero)

/--
`v_side` of solid_phys.c: earliest intersection time and position of
the sphere with the plane of normal `n` at distance `d` from the frame
origin `o`, the frame moving along `w`.  The C guard is `vn − wn ≤ 0`;
at exact equality the two divisions below are `x/0` (an IEEE infinity
or NaN), and every downstream use then behaves as no contact — that
boundary case is embedded as the sentinel branch directly, so the
embedded guard is strict.
-/
def v_side (o w n : Vec3) (d : ℝ) (p v : Vec3) (r : ℝ) : ℝ × Vec3 :=
  let vn := v_dot v n
  let wn := v_dot w n
  if vn - wn < 0 then
    let onn := v_dot o n
    let pn := v_dot p n
    let u := (r + d + onn - pn) / (vn - wn)
    let a := (d + onn - pn) / (vn - wn)
    if 0 ≤ u then (u, v_mad (v_mad p v u) n (-r))
    else if 0 ≤ a then (0, v_mad (v_mad p v 0) n (-r))
    else (LARGE, vzero)
  else (LARGE, vzero)

/-- `sol_test_vert` of solid_phys.c. -/
def sol_test_vert (dt : ℝ) (up : SBall) (vp : SVert) (o w : Vec3) : ℝ × Vec3 :=
  v_vert o vp.p w up.p up.v up.r

/-- `sol_test_edge` of solid_phys.c. -/
def sol_test_edge (dt : ℝ) (up : SBall) (fp : SFile) (ep : SEdge)
    (o w : Vec3) : ℝ × Vec3 :=
  let q := (vertAt fp ep.vi).p
  let u := v_sub (vertAt fp ep.vj).p (vertAt fp ep.vi).p
  v_edge o q u w up.p up.v up.r

/--
`sol_test_side` of solid_phys.c: the plane test for one side of a
lump, validated against every other side of the same convex lump: if
the candidate time is below the remaining budget but the implied
contact point lies outside any other bounding side (in the body's
moving frame), the candidate is rejected with the sentinel.  The side
is identified by its index `si` into the side array, mirroring the C
pointer comparison `sp != sq`.
-/
def sol_test_side (dt : ℝ) (up : SBall) (fp : SFile) (lp : SLump)
    (si : ℕ) (o w : Vec3) : ℝ × Vec3 :=
  let sp := sideAt fp si
  let tq := v_side o w sp.n sp.d up.p up.v up.r
  if tq.1 < dt ∧ ∃ i < lp.sc, ivAt fp (lp.s0 + i) ≠ si ∧
      (let sq := sideAt fp (ivAt fp (lp.s0 + i))
       v_dot tq.2 sq.n - v_dot o sq.n - v_dot w sq.n * tq.1 > sq.d)
  then (LARGE, tq.2) else tq

/--
Claim C5: if the plane test for side `si` of lump `lp` computes a
candidate time below the remaining budget `dt`, but the implied
contact point at that time lies outside some other bounding side of
the same lump in the body's moving frame, then `sol_test_side`
rejects the candidate and returns the no-contact sentinel.
-/
theorem sol_test_side_rejects (dt : ℝ) (up : SBall) (fp : SFile) (lp : SLump)
    (si : ℕ) (o w : Vec3)
    (hlt : (v_side o w (sideAt fp si).n (sideAt fp si).d up.p up.v up.r).1 < dt)
    (hout : ∃ i < lp.sc, ivAt fp (lp.s0 + i) ≠ si ∧
      v_dot (v_side o w (sideAt fp si).n (sideAt fp si).d up.p up.v up.r).2
          (sideAt fp (ivAt fp (lp.s0 + i))).n -
        v_dot o (sideAt fp (ivAt fp (lp.s0 + i))).n -
        v_dot w (sideAt fp (ivAt fp (lp.s0 + i))).n *
          (v_side o w (sideAt fp si).n (sideAt fp si).d up.p up.v up.r).1 >
        (sideAt fp (ivAt fp (lp.s0 + i))).d) :
    (sol_test_side dt up fp lp si o w).1 = LARGE := by
  rw [sol_test_side]
  rw [if_pos ⟨hlt, hout⟩]

def w5SideA : SSide := ⟨(0, 1, 0), 0⟩

def w5SideB : SSide := ⟨(1, 0, 0), -5⟩

def w5File : SFile :=
  ⟨[], [], [w5SideA, w5SideB], [0, 1], [], fun _ => cexPath0, 0, [], [], [], []⟩

def w5Lump : SLump := ⟨false, 0, 0, 0, 0, 0, 2⟩

def w5Ball : SBall := ⟨((1,0,0), (0,1,0), (0,0,1)), (0, 2, 0), (0, -1, 0), 1,
  vzero, ((1,0,0), (0,1,0), (0,0,1)), vzero⟩

/-- Witness for C5: the ball falling onto the plane `y = 0` of a lump
whose only other side keeps the lump inside `x ≤ -5`: the computed
contact time `1` is below the budget `2`, the contact point `(0,0,0)`
lies outside the other side, and the candidate is rejected. -/
theorem sol_test_side_rejects_witness :
    (v_side vzero vzero (sideAt w5File 0).n (sideAt w5File 0).d
        w5Ball.p w5Ball.v w5Ball.r).1 = 1 ∧
    (sol_test_side 2 w5Ball w5File w5Lump 0 vzero vzero).1 = LARGE := by
  have hside : v_side vzero vzero (sideAt w5File 0).n (sideAt w5File 0).d
      w5Ball.p w5Ball.v w5Ball.r = (1, ((0:ℝ), (0:ℝ), (0:ℝ))) := by
    show v_side vzero vzero w5SideA.n w5SideA.d w5Ball.p w5Ball.v w5Ball.r = _
    norm_num [v_side, v_dot, v_mad, vzero, w5SideA, w5Ball, Prod.ext_iff]
  refine ⟨by rw [hside], ?_⟩
  apply sol_test_side_rejects
  · rw [hside]; norm_num
  · refine ⟨1, by norm_num [w5Lump], ?_, ?_⟩
    · show ivAt w5File (w5Lump.s0 + 1) ≠ 0
      norm_num [ivAt, w5File, w5Lump]
    · rw [hside]
      show v_dot ((0:ℝ), (0:ℝ), (0:ℝ)) (sideAt w5File (ivAt w5File (w5Lump.s0 + 1))).n -
          v_dot vzero (sideAt w5File (ivAt w5File (w5Lump.s0 + 1))).n -
          v_dot vzero (sideAt w5File (ivAt w5File (w5Lump.s0 + 1))).n * (1:ℝ) >
          (sideAt w5File (ivAt w5File (w5Lump.s0 + 1))).d
      norm_num [sideAt, ivAt, w5File, w5Lump, w5SideB, v_dot, vzero]

/--
`sol_test_fore` of solid_phys.c: the fore plane-side classification used
to prune the BSP descent.  Passes (the fore subtree must be tested)
unless the ball, its radius included, is strictly behind the splitting
plane both now and after `dt` of its own motion.  Note that the body
velocity parameter `w` is received but never used — the test ignores
the motion of the geometry itself.
-/
def sol_test_fore (dt : ℝ) (up : SBall) (sp : SSide) (o w : Vec3) : Prop :=
  0 ≤ v_dot (v_sub up.p o) sp.n - sp.d + up.r ∨
  0 ≤ v_dot (v_mad (v_sub up.p o) up.v dt) sp.n - sp.d + up.r

/-- `sol_test_back` of solid_phys.c: the symmetric back classification. -/
def sol_test_back (dt : ℝ) (up : SBall) (sp : SSide) (o w : Vec3) : Prop :=
  v_dot (v_sub up.p o) sp.n - sp.d - up.r ≤ 0 ∨
  v_dot (v_mad (v_sub up.p o) up.v dt) sp.n - sp.d - up.r ≤ 0

/-- The earliest-time fold shared by the traversal layers: each
candidate test receives the running best time as its budget and the
state improves only on a strictly smaller time (`if (u < t)` in the C). -/
def tmin {α : Type} (f : ℝ → ℕ → ℝ × α) (s : ℝ × α) (l : List ℕ) : ℝ × α :=
  l.foldl (fun s i => let r := f s.1 i; if r.1 < s.1 then r else s) s

/--
`sol_test_lump` of solid_phys.c: earliest contact with one lump —
a non-solid (detail) lump is skipped; vertices and edges are tested
only for a positive ball radius; sides are tested with the convexity
gating of `sol_test_side`.
-/
def sol_test_lump (dt : ℝ) (up : SBall) (fp : SFile) (lp : SLump)
    (o w : Vec3) : ℝ × Vec3 :=
  if lp.fl then (dt, vzero) else
  let s0 : ℝ × Vec3 := (dt, vzero)
  let s1 := if 0 < up.r then
      tmin (fun t i => sol_test_vert t up (vertAt fp (ivAt fp (lp.v0 + i))) o w)
        s0 (List.range lp.vc)
    else s0
  let s2 := if 0 < up.r then
      tmin (fun t i => sol_test_edge t up fp (edgeAt fp (ivAt fp (lp.e0 + i))) o w)
        s1 (List.range lp.ec)
    else s1
  tmin (fun t i => sol_test_side t up fp lp (ivAt fp (lp.s0 + i)) o w)
    s2 (List.range lp.sc)

/--
`sol_test_node` of solid_phys.c: earliest contact over a BSP subtree —
the node's own lumps, then the fore child (only when `sol_test_fore`
passes), then the back child (only when `sol_test_back` passes), each
probed with the running best time as budget.
-/
def sol_test_node (up : SBall) (fp : SFile) :
    ℝ → SNode → Vec3 → Vec3 → ℝ × Vec3
  | dt, SNode.nil, _, _ => (dt, vzero)
  | dt, SNode.mk si l0 lc fore back, o, w =>
    let s0 := tmin (fun t i => sol_test_lump t up fp (lumpAt fp (l0 + i)) o w)
      (dt, vzero) (List.range lc)
    let s1 := if fore ≠ SNode.nil ∧ sol_test_fore s0.1 up (sideAt fp si) o w then
        let r := sol_test_node up fp s0.1 fore o w
        if r.1 < s0.1 then r else s0
      else s0
    let s2 := if back ≠ SNode.nil ∧ sol_test_back s1.1 up (sideAt fp si) o w then
        let r := sol_test_node up fp s1.1 back o w
        if r.1 < s1.1 then r else s1
      else s1
    s2

/--
The brute-force reference traversal for the pruning-safety property:
identical to `sol_test_node` but with the fore/back plane-side pruning
tests removed — every lump of the subtree is tested.
-/
def sol_test_node_all (up : SBall) (fp : SFile) :
    ℝ → SNode → Vec3 → Vec3 → ℝ × Vec3
  | dt, SNode.nil, _, _ => (dt, vzero)
  | dt, SNode.mk _ l0 lc fore back, o, w =>
    let s0 := tmin (fun t i => sol_test_lump t up fp (lumpAt fp (l0 + i)) o w)
      (dt, vzero) (List.range lc)
    let s1 :=
      let r := sol_test_node_all up fp s0.1 fore o w
      if r.1 < s0.1 then r else s0
    let s2 :=
      let r := sol_test_node_all up fp s1.1 back o w
      if r.1 < s1.1 then r else s1
    s2

/-- `sol_test_body` of solid_phys.c: the node test against one body's
subtree in that body's current moving frame. -/
def sol_test_body (dt : ℝ) (up : SBall) (fp : SFile) (bp : SBody) :
    ℝ × Vec3 × Vec3 :=
  let O := sol_body_p fp bp
  let W := sol_body_v fp bp
  let r := sol_test_node up fp dt bp.ni O W
  if r.1 < dt then (r.1, r.2, W) else (dt, vzero, vzero)

/-- `sol_test_file` of solid_phys.c: the earliest contact over every
body of the level. -/
def sol_test_file (dt : ℝ) (up : SBall) (fp : SFile) : ℝ × Vec3 × Vec3 :=
  fp.bv.foldl (fun s bp =>
    let r := sol_test_body s.1 up fp bp
    if r.1 < s.1 then r else s) (dt, vzero, vzero)

theorem vdot_mad_self (P V : Vec3) (u : ℝ) :
    v_dot (v_mad P V u) (v_mad P V u)
      = v_dot V V * u ^ 2 + v_dot V P * 2 * u + v_dot P P := by
  simp only [v_dot, v_mad]; ring

/-- Modelled from the spec: `v_neg` of vec3.h, componentwise negation. -/
def v_neg (a : Vec3) : Vec3 := (-a.1, -a.2.1, -a.2.2)

theorem vdot_neg_right (a b : Vec3) : v_dot a (v_neg b) = -v_dot a b := by
  simp only [v_dot, v_neg]; ring

theorem vdot_neg_self (a : Vec3) : v_dot (v_neg a) (v_neg a) = v_dot a a := by
  simp only [v_dot, v_neg]; ring

/-- The running best time of a `tmin` fold never increases. -/
theorem tmin_fst_le {α : Type} (f : ℝ → ℕ → ℝ × α) (s : ℝ × α) (l : List ℕ) :
    (tmin f s l).1 ≤ s.1 := by
  induction l generalizing s with
  | nil => exact le_refl _
  | cons a l ih =>
    simp only [tmin, List.foldl_cons] at *
    by_cases h : (f s.1 a).1 < s.1
    · calc (List.foldl _ (if (f s.1 a).1 < s.1 then f s.1 a else s) l).1
          ≤ (if (f s.1 a).1 < s.1 then f s.1 a else s).1 := ih _
        _ ≤ s.1 := by rw [if_pos h]; exact h.le
    · calc (List.foldl _ (if (f s.1 a).1 < s.1 then f s.1 a else s) l).1
          ≤ (if (f s.1 a).1 < s.1 then f s.1 a else s).1 := ih _
        _ ≤ s.1 := by rw [if_neg h]

/-- A `tmin` fold in which no candidate beats the seed leaves the seed
unchanged. -/
theorem tmin_keep {α : Type} (f : ℝ → ℕ → ℝ × α) (s : ℝ × α) (l : List ℕ)
    (h : ∀ i ∈ l, ¬ (f s.1 i).1 < s.1) : tmin f s l = s := by
  induction l with
  | nil => rfl
  | cons a l ih =>
    simp only [tmin, List.foldl_cons]
    rw [if_neg (h a (List.mem_cons_self a l))]
    exact ih fun i hi => h i (List.mem_cons_of_mem a hi)

/-- Linear interpolation of a signed distance: negative at both ends of
the window, hence negative throughout. -/
theorem behind_interp (x vn t' u : ℝ)
    (h0 : x < 0) (h1 : x + t' * vn < 0) (hu0 : 0 ≤ u) (hut : u ≤ t') :
    x + u * vn < 0 := by
  rcases le_or_lt vn 0 with h | h
  · nlinarith
  · nlinarith

/-- A sphere whose center is strictly more than `r` behind a unit-normal
plane cannot touch a point on or in front of that plane. -/
theorem sphere_separation (c ns : Vec3) (r : ℝ) (hns : v_dot ns ns = 1)
    (hr : 0 ≤ r) (hd : v_dot c c = r * r) (hlt : v_dot c ns < -r) : False := by
  have hcs := vdot_sq_le c ns
  rw [hd, hns, mul_one] at hcs
  nlinarith [hlt]

/-- A vertex-test candidate below a budget within the sentinel is a
genuine contact: non-negative time, with the moving sphere's center at
distance exactly `r` from the moving vertex at that time. -/
theorem vert_candidate (o q w p v : Vec3) (r t' : ℝ) (ht : t' ≤ LARGE)
    (hu : (v_vert o q w p v r).1 < t') :
    0 ≤ (v_vert o q w p v r).1 ∧
    v_dot (v_sub (v_mad p v (v_vert o q w p v r).1)
        (v_mad (v_add o q) w (v_vert o q w p v r).1))
      (v_sub (v_mad p v (v_vert o q w p v r).1)
        (v_mad (v_add o q) w (v_vert o q w p v r).1)) = r * r := by
  by_cases happ : v_dot (v_sub p (v_add o q)) (v_sub v w) < 0
  · have hfst : (v_vert o q w p v r).1 =
        v_sol (v_sub p (v_add o q)) (v_sub v w) r := by
      simp only [v_vert, if_pos happ]
      split_ifs <;> rfl
    rw [hfst] at hu ⊢
    have hne : v_sol (v_sub p (v_add o q)) (v_sub v w) r ≠ LARGE := by
      intro he; rw [he] at hu; linarith
    have hnn : 0 ≤ v_sol (v_sub p (v_add o q)) (v_sub v w) r :=
      v_sol_nonneg _ _ _ hne (by rw [vdot_comm]; exact happ)
    have hroot := v_sol_root (v_sub p (v_add o q)) (v_sub v w) r hne
    refine ⟨hnn, ?_⟩
    have hvec : v_sub (v_mad p v (v_sol (v_sub p (v_add o q)) (v_sub v w) r))
        (v_mad (v_add o q) w (v_sol (v_sub p (v_add o q)) (v_sub v w) r)) =
        v_mad (v_sub p (v_add o q)) (v_sub v w)
          (v_sol (v_sub p (v_add o q)) (v_sub v w) r) := by
      simp only [v_sub, v_mad, v_add, Prod.mk.injEq]
      refine ⟨by ring, by ring, by ring⟩
    rw [hvec, vdot_mad_self]
    linarith [hroot]
  · exfalso
    have hfst : (v_vert o q w p v r).1 = LARGE := by
      simp only [v_vert, if_neg happ]
    rw [hfst] at hu
    linarith

/-- An edge-test candidate below a budget within the sentinel is a
genuine contact: non-negative time, contact point strictly inside the
edge segment, at distance exactly `r` from the sphere's center. -/
theorem edge_candidate (o q u w p v : Vec3) (r t' tval : ℝ) (Q : Vec3)
    (ht : t' ≤ LARGE) (he : v_edge o q u w p v r = (tval, Q))
    (hu : tval < t') :
    0 ≤ tval ∧ ∃ s : ℝ, 0 < s ∧ s < 1 ∧
      Q = v_add (v_mad q u s) (v_mad o w tval) ∧
      v_dot (v_sub (v_mad p v tval) Q) (v_sub (v_mad p v tval) Q) = r * r := by
  simp only [v_edge] at he
  split_ifs at he with hg
  · rw [Prod.mk.injEq] at he
    obtain ⟨hteq, hQeq⟩ := he
    obtain ⟨hg0, hgL, hgs0, hgs1⟩ := hg
    have hne : v_sol
        (v_mad (v_sub (v_sub p o) q) u (-(v_dot (v_sub (v_sub p o) q) u) / v_dot u u))
        (v_mad (v_sub v w) u (-(v_dot (v_sub v w) u) / v_dot u u)) r ≠ LARGE :=
      ne_of_lt hgL
    have hroot := v_sol_root _ _ _ hne
    rw [hteq] at hg0 hgs0 hgs1 hQeq hroot
    refine ⟨hg0, (v_dot (v_sub (v_sub p o) q) u +
        v_dot (v_sub v w) u * tval) / v_dot u u, hgs0, hgs1, hQeq.symm, ?_⟩
    rw [← hQeq]
    have hvec : v_sub (v_mad p v tval)
        (v_add (v_mad q u ((v_dot (v_sub (v_sub p o) q) u +
            v_dot (v_sub v w) u * tval) / v_dot u u)) (v_mad o w tval)) =
        v_mad (v_mad (v_sub (v_sub p o) q) u
            (-(v_dot (v_sub (v_sub p o) q) u) / v_dot u u))
          (v_mad (v_sub v w) u (-(v_dot (v_sub v w) u) / v_dot u u)) tval := by
      simp only [v_sub, v_mad, v_add, v_dot, Prod.mk.injEq]
      refine ⟨by ring, by ring, by ring⟩
    rw [hvec, vdot_mad_self]
    linarith [hroot]
  · rw [Prod.mk.injEq] at he
    obtain ⟨hteq, _⟩ := he
    exfalso
    rw [← hteq] at hu
    linarith

/-- A side-test candidate below a budget within the sentinel is a
genuine contact: non-negative time, with the returned contact point at
distance exactly `r` from the sphere's center and on or behind the
side's plane in the moving frame. -/
theorem side_candidate (o w n : Vec3) (dd : ℝ) (p v : Vec3) (r t' tval : ℝ)
    (Q : Vec3) (hn : v_dot n n = 1) (ht : t' ≤ LARGE)
    (he : v_side o w n dd p v r = (tval, Q)) (hu : tval < t') :
    0 ≤ tval ∧
    v_dot (v_sub (v_mad p v tval) Q) (v_sub (v_mad p v tval) Q) = r * r ∧
    v_dot (v_sub Q (v_mad o w tval)) n ≤ dd := by
  have hdist : ∀ t0 : ℝ, Q = v_mad (v_mad p v t0) n (-r) → tval = t0 →
      v_dot (v_sub (v_mad p v tval) Q) (v_sub (v_mad p v tval) Q) = r * r := by
    intro t0 hQ ht0
    subst ht0
    rw [hQ]
    have hc : v_sub (v_mad p v tval) (v_mad (v_mad p v tval) n (-r)) =
        v_scl n r := by
      simp only [v_sub, v_mad, v_scl, Prod.mk.injEq]
      refine ⟨by ring, by ring, by ring⟩
    rw [hc]
    have : v_dot (v_scl n r) (v_scl n r) = r * r * v_dot n n := by
      simp only [v_dot, v_scl]; ring
    rw [this, hn, mul_one]
  simp only [v_side] at he
  split_ifs at he with h1 h2 h3
  · rw [Prod.mk.injEq] at he
    obtain ⟨hteq, hQeq⟩ := he
    have hden : v_dot v n - v_dot w n ≠ 0 := ne_of_lt h1
    have hueq : tval * (v_dot v n - v_dot w n) =
        r + dd + v_dot o n - v_dot p n := by
      rw [← hteq]
      exact div_mul_cancel₀ _ hden
    rw [hteq] at hQeq
    refine ⟨hteq ▸ h2, hdist _ hQeq.symm rfl, ?_⟩
    rw [← hQeq]
    have hexp : v_dot (v_sub (v_mad (v_mad p v tval) n (-r)) (v_mad o w tval)) n
        = v_dot p n + tval * v_dot v n + (-r) * v_dot n n -
          (v_dot o n + tval * v_dot w n) := by
      rw [vdot_sub_left, vdot_mad_left, vdot_mad_left, vdot_mad_left]
    rw [hexp, hn]
    nlinarith [hueq]
  · rw [Prod.mk.injEq] at he
    obtain ⟨hteq, hQeq⟩ := he
    have hnum : 0 < r + dd + v_dot o n - v_dot p n := by
      by_contra hc
      push_neg at hc
      have : 0 ≤ (r + dd + v_dot o n - v_dot p n) / (v_dot v n - v_dot w n) :=
        div_nonneg_iff.2 (Or.inr ⟨hc, h1.le⟩)
      exact h2 this
    refine ⟨hteq ▸ le_refl 0, hdist _ hQeq.symm hteq.symm, ?_⟩
    rw [← hQeq, ← hteq]
    have hexp : v_dot (v_sub (v_mad (v_mad p v 0) n (-r)) (v_mad o w 0)) n
        = v_dot p n + 0 * v_dot v n + (-r) * v_dot n n -
          (v_dot o n + 0 * v_dot w n) := by
      rw [vdot_sub_left, vdot_mad_left, vdot_mad_left, vdot_mad_left]
    rw [hexp, hn]
    nlinarith [hnum]
  · rw [Prod.mk.injEq] at he
    exfalso
    rw [← he.1] at hu
    linarith
  · rw [Prod.mk.injEq] at he
    exfalso
    rw [← he.1] at hu
    linarith

theorem vdot_zero_left (a : Vec3) : v_dot vzero a = 0 := by
  simp [v_dot, vzero]

/-- An accepted (non-rejected) `sol_test_side` candidate below the
budget, with a static frame (`w = 0`): a genuine contact whose point
lies within every bounding side of the lump in frame coordinates. -/
theorem test_side_candidate (t' : ℝ) (up : SBall) (fp : SFile) (lp : SLump)
    (si : ℕ) (o : Vec3) (ht' : t' ≤ LARGE)
    (hn : v_dot (sideAt fp si).n (sideAt fp si).n = 1)
    (hu : (sol_test_side t' up fp lp si o vzero).1 < t') :
    ∃ tval Q, sol_test_side t' up fp lp si o vzero = (tval, Q) ∧ 0 ≤ tval ∧
      tval < t' ∧
      v_dot (v_sub (v_mad up.p up.v tval) Q) (v_sub (v_mad up.p up.v tval) Q)
        = up.r * up.r ∧
      ∀ i, i < lp.sc →
        v_dot (v_sub Q o) (sideAt fp (ivAt fp (lp.s0 + i))).n
          ≤ (sideAt fp (ivAt fp (lp.s0 + i))).d := by
  simp only [sol_test_side] at hu ⊢
  split_ifs at hu ⊢ with hC
  · exfalso
    have hL : LARGE < t' := hu
    linarith [hL, ht']
  · have hu' : (v_side o vzero (sideAt fp si).n (sideAt fp si).d
        up.p up.v up.r).1 < t' := hu
    obtain ⟨h0, hdist, hown⟩ :=
      side_candidate o vzero (sideAt fp si).n (sideAt fp si).d up.p up.v up.r
        t' (v_side o vzero (sideAt fp si).n (sideAt fp si).d up.p up.v up.r).1
        (v_side o vzero (sideAt fp si).n (sideAt fp si).d up.p up.v up.r).2
        hn ht' rfl hu'
    rw [vmad_zero] at hown
    refine ⟨(v_side o vzero (sideAt fp si).n (sideAt fp si).d up.p up.v up.r).1,
      (v_side o vzero (sideAt fp si).n (sideAt fp si).d up.p up.v up.r).2,
      Prod.mk.eta.symm, h0, hu', hdist, ?_⟩
    intro i hi
    by_cases hsi : ivAt fp (lp.s0 + i) = si
    · rw [hsi]
      exact hown
    · push_neg at hC
      have hgate := hC hu' i hi hsi
      have hz := vdot_zero_left (sideAt fp (ivAt fp (lp.s0 + i))).n
      rw [hz, zero_mul] at hgate
      rw [vdot_sub_left]
      linarith [hgate]

/-- All geometry of a lump lies in the region `H` (frame coordinates):
every referenced vertex, both endpoints of every referenced edge, and
every point within all the lump's bounding sides. -/
def LumpIn (fp : SFile) (lp : SLump) (H : Vec3 → Prop) : Prop :=
  (∀ i, i < lp.vc → H (vertAt fp (ivAt fp (lp.v0 + i))).p) ∧
  (∀ i, i < lp.ec →
    H (vertAt fp (edgeAt fp (ivAt fp (lp.e0 + i))).vi).p ∧
    H (vertAt fp (edgeAt fp (ivAt fp (lp.e0 + i))).vj).p) ∧
  (∀ x : Vec3, (∀ i, i < lp.sc →
      v_dot x (sideAt fp (ivAt fp (lp.s0 + i))).n
        ≤ (sideAt fp (ivAt fp (lp.s0 + i))).d) → H x)

/-- All geometry of every lump of a subtree lies in the region `H`. -/
def NodeIn (fp : SFile) (H : Vec3 → Prop) : SNode → Prop
  | SNode.nil => True
  | SNode.mk _ l0 lc fore back =>
    (∀ i, i < lc → LumpIn fp (lumpAt fp (l0 + i)) H) ∧
    NodeIn fp H fore ∧ NodeIn fp H back

/-- The closed fore half-space of a splitting side. -/
def foreHalf (sp : SSide) (x : Vec3) : Prop := sp.d ≤ v_dot x sp.n

/-- The closed back half-space of a splitting side. -/
def backHalf (sp : SSide) (x : Vec3) : Prop := v_dot x sp.n ≤ sp.d

/-- BSP validity (the data-model invariant): at every node, the fore
subtree's geometry lies in the splitting side's closed fore half-space
and the back subtree's geometry in its closed back half-space. -/
def NodeWF (fp : SFile) : SNode → Prop
  | SNode.nil => True
  | SNode.mk si _ _ fore back =>
    NodeIn fp (foreHalf (sideAt fp si)) fore ∧
    NodeIn fp (backHalf (sideAt fp si)) back ∧
    NodeWF fp fore ∧ NodeWF fp back

theorem LumpIn_mono {fp : SFile} {lp : SLump} {H H' : Vec3 → Prop}
    (h : LumpIn fp lp H) (himp : ∀ x, H x → H' x) : LumpIn fp lp H' :=
  ⟨fun i hi => himp _ (h.1 i hi),
   fun i hi => ⟨himp _ (h.2.1 i hi).1, himp _ (h.2.1 i hi).2⟩,
   fun x hx => himp _ (h.2.2 x hx)⟩

theorem NodeIn_mono {fp : SFile} {H H' : Vec3 → Prop}
    (himp : ∀ x, H x → H' x) : ∀ n : SNode, NodeIn fp H n → NodeIn fp H' n
  | SNode.nil, _ => trivial
  | SNode.mk si l0 lc fore back, h =>
    ⟨fun i hi => LumpIn_mono (h.1 i hi) himp,
     NodeIn_mono himp fore h.2.1, NodeIn_mono himp back h.2.2⟩

/-- If the ball, its radius included, stays strictly on the negative
side of a unit-normal plane over the whole window `[0, t']` while all
of a lump's geometry lies on the non-negative side, then the lump test
in a static frame (`w = 0`) finds no candidate below `t'`. -/
theorem lump_skip (fp : SFile) (up : SBall) (o : Vec3) (lp : SLump)
    (ns : Vec3) (ds t' : ℝ)
    (hr : 0 ≤ up.r) (ht' : t' ≤ LARGE)
    (hn : v_dot ns ns = 1)
    (hunit : ∀ i : ℕ, v_dot (sideAt fp i).n (sideAt fp i).n = 1)
    (hg : LumpIn fp lp (fun x => ds ≤ v_dot x ns))
    (hb0 : v_dot (v_sub up.p o) ns - ds + up.r < 0)
    (hbt : v_dot (v_mad (v_sub up.p o) up.v t') ns - ds + up.r < 0) :
    sol_test_lump t' up fp lp o vzero = (t', vzero) := by
  have hbu : ∀ u : ℝ, 0 ≤ u → u ≤ t' →
      v_dot (v_sub up.p o) ns - ds + up.r + u * v_dot up.v ns < 0 := by
    intro u hu0 hut
    have h1 : v_dot (v_sub up.p o) ns - ds + up.r + t' * v_dot up.v ns < 0 := by
      rw [vdot_mad_left] at hbt
      linarith
    have := behind_interp (v_dot (v_sub up.p o) ns - ds + up.r)
      (v_dot up.v ns) t' u hb0 h1 hu0 hut
    linarith
  have hvert : ∀ i ∈ List.range lp.vc,
      ¬ (sol_test_vert t' up (vertAt fp (ivAt fp (lp.v0 + i))) o vzero).1 < t' := by
    intro i hi hc
    rw [List.mem_range] at hi
    have hc' : (v_vert o (vertAt fp (ivAt fp (lp.v0 + i))).p vzero
        up.p up.v up.r).1 < t' := hc
    obtain ⟨hnn, hdist⟩ := vert_candidate o (vertAt fp (ivAt fp (lp.v0 + i))).p
      vzero up.p up.v up.r t' ht' hc'
    rw [vmad_zero] at hdist
    have hq : ds ≤ v_dot (vertAt fp (ivAt fp (lp.v0 + i))).p ns := hg.1 i hi
    have hcns : v_dot (v_sub (v_mad up.p up.v
        (v_vert o (vertAt fp (ivAt fp (lp.v0 + i))).p vzero up.p up.v up.r).1)
        (v_add o (vertAt fp (ivAt fp (lp.v0 + i))).p)) ns =
        (v_dot (v_sub up.p o) ns - ds + up.r +
          (v_vert o (vertAt fp (ivAt fp (lp.v0 + i))).p vzero up.p up.v up.r).1 *
            v_dot up.v ns) -
        (v_dot (vertAt fp (ivAt fp (lp.v0 + i))).p ns - ds) - up.r := by
      rw [vdot_sub_left, vdot_mad_left, vdot_add_left, vdot_sub_left]
      ring
    have hlt : v_dot (v_sub (v_mad up.p up.v
        (v_vert o (vertAt fp (ivAt fp (lp.v0 + i))).p vzero up.p up.v up.r).1)
        (v_add o (vertAt fp (ivAt fp (lp.v0 + i))).p)) ns < -up.r := by
      rw [hcns]
      have := hbu _ hnn hc'.le
      linarith
    exact sphere_separation _ ns up.r hn hr hdist hlt
  have hedge : ∀ i ∈ List.range lp.ec,
      ¬ (sol_test_edge t' up fp (edgeAt fp (ivAt fp (lp.e0 + i))) o vzero).1 < t' := by
    intro i hi hc
    rw [List.mem_range] at hi
    have hc' : (v_edge o (vertAt fp (edgeAt fp (ivAt fp (lp.e0 + i))).vi).p
        (v_sub (vertAt fp (edgeAt fp (ivAt fp (lp.e0 + i))).vj).p
          (vertAt fp (edgeAt fp (ivAt fp (lp.e0 + i))).vi).p)
        vzero up.p up.v up.r).1 < t' := hc
    obtain ⟨hnn, s, hs0, hs1, hQ, hdist⟩ := edge_candidate o
      (vertAt fp (edgeAt fp (ivAt fp (lp.e0 + i))).vi).p
      (v_sub (vertAt fp (edgeAt fp (ivAt fp (lp.e0 + i))).vj).p
        (vertAt fp (edgeAt fp (ivAt fp (lp.e0 + i))).vi).p)
      vzero up.p up.v up.r t' _ _ ht' Prod.mk.eta.symm hc'
    rw [vmad_zero] at hQ
    rw [hQ] at hdist
    have hq1 : ds ≤ v_dot (vertAt fp (edgeAt fp (ivAt fp (lp.e0 + i))).vi).p ns :=
      (hg.2.1 i hi).1
    have hq2 : ds ≤ v_dot (vertAt fp (edgeAt fp (ivAt fp (lp.e0 + i))).vj).p ns :=
      (hg.2.1 i hi).2
    have hcns : v_dot (v_sub (v_mad up.p up.v
        (v_edge o (vertAt fp (edgeAt fp (ivAt fp (lp.e0 + i))).vi).p
          (v_sub (vertAt fp (edgeAt fp (ivAt fp (lp.e0 + i))).vj).p
            (vertAt fp (edgeAt fp (ivAt fp (lp.e0 + i))).vi).p)
          vzero up.p up.v up.r).1)
        (v_add (v_mad (vertAt fp (edgeAt fp (ivAt fp (lp.e0 + i))).vi).p
          (v_sub (vertAt fp (edgeAt fp (ivAt fp (lp.e0 + i))).vj).p
            (vertAt fp (edgeAt fp (ivAt fp (lp.e0 + i))).vi).p) s) o)) ns =
        (v_dot (v_sub up.p o) ns - ds + up.r +
          (v_edge o (vertAt fp (edgeAt fp (ivAt fp (lp.e0 + i))).vi).p
            (v_sub (vertAt fp (edgeAt fp (ivAt fp (lp.e0 + i))).vj).p
              (vertAt fp (edgeAt fp (ivAt fp (lp.e0 + i))).vi).p)
            vzero up.p up.v up.r).1 * v_dot up.v ns) -
        ((1 - s) * (v_dot (vertAt fp (edgeAt fp (ivAt fp (lp.e0 + i))).vi).p ns - ds) +
          s * (v_dot (vertAt fp (edgeAt fp (ivAt fp (lp.e0 + i))).vj).p ns - ds)) -
        up.r := by
      rw [vdot_sub_left, vdot_mad_left, vdot_add_left, vdot_mad_left,
        vdot_sub_left, vdot_sub_left]
      ring
    have hm1 : 0 ≤ (1 - s) *
        (v_dot (vertAt fp (edgeAt fp (ivAt fp (lp.e0 + i))).vi).p ns - ds) :=
      mul_nonneg (by linarith) (by linarith)
    have hm2 : 0 ≤ s *
        (v_dot (vertAt fp (edgeAt fp (ivAt fp (lp.e0 + i))).vj).p ns - ds) :=
      mul_nonneg (by linarith) (by linarith)
    have hlt : v_dot (v_sub (v_mad up.p up.v
        (v_edge o (vertAt fp (edgeAt fp (ivAt fp (lp.e0 + i))).vi).p
          (v_sub (vertAt fp (edgeAt fp (ivAt fp (lp.e0 + i))).vj).p
            (vertAt fp (edgeAt fp (ivAt fp (lp.e0 + i))).vi).p)
          vzero up.p up.v up.r).1)
        (v_add (v_mad (vertAt fp (edgeAt fp (ivAt fp (lp.e0 + i))).vi).p
          (v_sub (vertAt fp (edgeAt fp (ivAt fp (lp.e0 + i))).vj).p
            (vertAt fp (edgeAt fp (ivAt fp (lp.e0 + i))).vi).p) s) o)) ns
        < -up.r := by
      rw [hcns]
      have := hbu _ hnn hc'.le
      linarith
    exact sphere_separation _ ns up.r hn hr hdist hlt
  have hside : ∀ i ∈ List.range lp.sc,
      ¬ (sol_test_side t' up fp lp (ivAt fp (lp.s0 + i)) o vzero).1 < t' := by
    intro i hi hc
    rw [List.mem_range] at hi
    obtain ⟨tval, Q, heq, h0, hlt', hdist, hgates⟩ :=
      test_side_candidate t' up fp lp (ivAt fp (lp.s0 + i)) o ht'
        (hunit (ivAt fp (lp.s0 + i))) hc
    have hH : ds ≤ v_dot (v_sub Q o) ns := hg.2.2 (v_sub Q o) hgates
    have hcns : v_dot (v_sub (v_mad up.p up.v tval) Q) ns =
        (v_dot (v_sub up.p o) ns - ds + up.r + tval * v_dot up.v ns) -
        (v_dot (v_sub Q o) ns - ds) - up.r := by
      rw [vdot_sub_left, vdot_mad_left, vdot_sub_left, vdot_sub_left]
      ring
    have hlt : v_dot (v_sub (v_mad up.p up.v tval) Q) ns < -up.r := by
      rw [hcns]
      have := hbu _ h0 hlt'.le
      linarith
    exact sphere_separation _ ns up.r hn hr hdist hlt
  have hv : (if 0 < up.r then
      tmin (fun t i => sol_test_vert t up (vertAt fp (ivAt fp (lp.v0 + i))) o vzero)
        ((t', vzero) : ℝ × Vec3) (List.range lp.vc)
    else ((t', vzero) : ℝ × Vec3)) = ((t', vzero) : ℝ × Vec3) := by
    split_ifs
    · exact tmin_keep _ _ _ hvert
    · rfl
  have he2 : (if 0 < up.r then
      tmin (fun t i => sol_test_edge t up fp (edgeAt fp (ivAt fp (lp.e0 + i))) o vzero)
        ((t', vzero) : ℝ × Vec3) (List.range lp.ec)
    else ((t', vzero) : ℝ × Vec3)) = ((t', vzero) : ℝ × Vec3) := by
    split_ifs
    · exact tmin_keep _ _ _ hedge
    · rfl
  have hs3 : tmin (fun t i => sol_test_side t up fp lp (ivAt fp (lp.s0 + i)) o vzero)
      ((t', vzero) : ℝ × Vec3) (List.range lp.sc) = ((t', vzero) : ℝ × Vec3) :=
    tmin_keep _ _ _ hside
  by_cases hfl : lp.fl
  · simp [sol_test_lump, hfl]
  · simp only [sol_test_lump, if_neg hfl, hv, he2, hs3]

/-- Whole-subtree no-candidate lemma: if the ball stays strictly behind
a unit-normal plane over `[0, t']` and all geometry of the subtree lies
on the other side, the brute-force traversal returns the budget
unchanged. -/
theorem node_skip (fp : SFile) (up : SBall) (o : Vec3) (ns : Vec3) (ds : ℝ)
    (hr : 0 ≤ up.r) (hn : v_dot ns ns = 1)
    (hunit : ∀ i : ℕ, v_dot (sideAt fp i).n (sideAt fp i).n = 1) :
    ∀ (n : SNode) (t' : ℝ), t' ≤ LARGE →
      NodeIn fp (fun x => ds ≤ v_dot x ns) n →
      v_dot (v_sub up.p o) ns - ds + up.r < 0 →
      v_dot (v_mad (v_sub up.p o) up.v t') ns - ds + up.r < 0 →
      sol_test_node_all up fp t' n o vzero = (t', vzero)
  | SNode.nil, t', _, _, _, _ => rfl
  | SNode.mk si l0 lc fore back, t', ht', hin, hb0, hbt => by
    have hlumps : ∀ i ∈ List.range lc,
        ¬ (sol_test_lump t' up fp (lumpAt fp (l0 + i)) o vzero).1 < t' := by
      intro i hi hc
      rw [List.mem_range] at hi
      rw [lump_skip fp up o (lumpAt fp (l0 + i)) ns ds t' hr ht' hn hunit
        (hin.1 i hi) hb0 hbt] at hc
      exact lt_irrefl _ hc
    have hs0 : tmin (fun t i => sol_test_lump t up fp (lumpAt fp (l0 + i)) o vzero)
        ((t', vzero) : ℝ × Vec3) (List.range lc) = ((t', vzero) : ℝ × Vec3) :=
      tmin_keep _ _ _ hlumps
    have hf := node_skip fp up o ns ds hr hn hunit fore t' ht' hin.2.1 hb0 hbt
    have hb := node_skip fp up o ns ds hr hn hunit back t' ht' hin.2.2 hb0 hbt
    simp only [sol_test_node_all, hs0, hf, hb, lt_self_iff_false, if_false]

/-- The fore stage of the node traversal agrees with the brute-force
fore stage: either the pruning test passes (and the subtrees agree by
the induction hypothesis), or the ball is strictly behind the plane
over the whole window and the brute-force probe finds nothing. -/
theorem stage_fore (fp : SFile) (up : SBall) (o : Vec3) (si : ℕ) (fore : SNode)
    (s0 : ℝ × Vec3) (hr : 0 ≤ up.r)
    (hunit : ∀ i : ℕ, v_dot (sideAt fp i).n (sideAt fp i).n = 1)
    (hin : NodeIn fp (foreHalf (sideAt fp si)) fore)
    (hs0L : s0.1 ≤ LARGE)
    (IH : ∀ t'' : ℝ, t'' ≤ LARGE →
      sol_test_node up fp t'' fore o vzero = sol_test_node_all up fp t'' fore o vzero) :
    (if fore ≠ SNode.nil ∧ sol_test_fore s0.1 up (sideAt fp si) o vzero then
       if (sol_test_node up fp s0.1 fore o vzero).1 < s0.1 then
         sol_test_node up fp s0.1 fore o vzero else s0
     else s0) =
    (if (sol_test_node_all up fp s0.1 fore o vzero).1 < s0.1 then
       sol_test_node_all up fp s0.1 fore o vzero else s0) := by
  cases fore with
  | nil => simp [sol_test_node_all]
  | mk si2 l02 lc2 f2 b2 =>
    by_cases htest : sol_test_fore s0.1 up (sideAt fp si) o vzero
    · rw [if_pos ⟨by simp, htest⟩, IH s0.1 hs0L]
    · rw [if_neg (by simp [htest])]
      simp only [sol_test_fore] at htest
      push_neg at htest
      rw [node_skip fp up o (sideAt fp si).n (sideAt fp si).d hr (hunit si) hunit
        (SNode.mk si2 l02 lc2 f2 b2) s0.1 hs0L hin htest.1 htest.2]
      simp

/-- The back stage, symmetric to `stage_fore` with the negated normal. -/
theorem stage_back (fp : SFile) (up : SBall) (o : Vec3) (si : ℕ) (back : SNode)
    (s1 : ℝ × Vec3) (hr : 0 ≤ up.r)
    (hunit : ∀ i : ℕ, v_dot (sideAt fp i).n (sideAt fp i).n = 1)
    (hin : NodeIn fp (backHalf (sideAt fp si)) back)
    (hs1L : s1.1 ≤ LARGE)
    (IH : ∀ t'' : ℝ, t'' ≤ LARGE →
      sol_test_node up fp t'' back o vzero = sol_test_node_all up fp t'' back o vzero) :
    (if back ≠ SNode.nil ∧ sol_test_back s1.1 up (sideAt fp si) o vzero then
       if (sol_test_node up fp s1.1 back o vzero).1 < s1.1 then
         sol_test_node up fp s1.1 back o vzero else s1
     else s1) =
    (if (sol_test_node_all up fp s1.1 back o vzero).1 < s1.1 then
       sol_test_node_all up fp s1.1 back o vzero else s1) := by
  cases back with
  | nil => simp [sol_test_node_all]
  | mk si2 l02 lc2 f2 b2 =>
    by_cases htest : sol_test_back s1.1 up (sideAt fp si) o vzero
    · rw [if_pos ⟨by simp, htest⟩, IH s1.1 hs1L]
    · rw [if_neg (by simp [htest])]
      simp only [sol_test_back] at htest
      push_neg at htest
      have hin2 : NodeIn fp
          (fun x => -(sideAt fp si).d ≤ v_dot x (v_neg (sideAt fp si).n))
          (SNode.mk si2 l02 lc2 f2 b2) := by
        refine NodeIn_mono (fun x hx => ?_) _ hin
        rw [vdot_neg_right]
        simp only [backHalf] at hx
        linarith
      have hn2 : v_dot (v_neg (sideAt fp si).n) (v_neg (sideAt fp si).n) = 1 := by
        rw [vdot_neg_self]; exact hunit si
      have hb0 : v_dot (v_sub up.p o) (v_neg (sideAt fp si).n) -
          (-(sideAt fp si).d) + up.r < 0 := by
        rw [vdot_neg_right]; linarith [htest.1]
      have hbt : v_dot (v_mad (v_sub up.p o) up.v s1.1) (v_neg (sideAt fp si).n) -
          (-(sideAt fp si).d) + up.r < 0 := by
        rw [vdot_neg_right]; linarith [htest.2]
      rw [node_skip fp up o (v_neg (sideAt fp si).n) (-(sideAt fp si).d) hr hn2
        hunit (SNode.mk si2 l02 lc2 f2 b2) s1.1 hs1L hin2 hb0 hbt]
      simp

/-- The pruned node traversal and the brute-force traversal coincide on
a valid BSP subtree, for a static frame and any budget within the
sentinel. -/
theorem node_equiv (fp : SFile) (up : SBall) (o : Vec3)
    (hr : 0 ≤ up.r)
    (hunit : ∀ i : ℕ, v_dot (sideAt fp i).n (sideAt fp i).n = 1) :
    ∀ n : SNode, NodeWF fp n → ∀ t' : ℝ, t' ≤ LARGE →
      sol_test_node up fp t' n o vzero = sol_test_node_all up fp t' n o vzero
  | SNode.nil, _, t', _ => rfl
  | SNode.mk si l0 lc fore back, hwf, t', ht' => by
    obtain ⟨hinf, hinb, hwff, hwfb⟩ := hwf
    have IHf : ∀ t'' : ℝ, t'' ≤ LARGE →
        sol_test_node up fp t'' fore o vzero = sol_test_node_all up fp t'' fore o vzero :=
      fun t'' ht'' => node_equiv fp up o hr hunit fore hwff t'' ht''
    have IHb : ∀ t'' : ℝ, t'' ≤ LARGE →
        sol_test_node up fp t'' back o vzero = sol_test_node_all up fp t'' back o vzero :=
      fun t'' ht'' => node_equiv fp up o hr hunit back hwfb t'' ht''
    simp only [sol_test_node, sol_test_node_all]
    have hs0L : (tmin (fun t i => sol_test_lump t up fp (lumpAt fp (l0 + i)) o vzero)
        ((t', vzero) : ℝ × Vec3) (List.range lc)).1 ≤ LARGE :=
      le_trans (tmin_fst_le _ _ _) ht'
    rw [stage_fore fp up o si fore _ hr hunit hinf hs0L IHf]
    set S0 := tmin (fun t i => sol_test_lump t up fp (lumpAt fp (l0 + i)) o vzero)
      ((t', vzero) : ℝ × Vec3) (List.range lc) with hS0
    set S1 := (if (sol_test_node_all up fp S0.1 fore o vzero).1 < S0.1 then
        sol_test_node_all up fp S0.1 fore o vzero else S0) with hS1
    have hs1L : S1.1 ≤ LARGE := by
      rw [hS1]
      split_ifs with h
      · exact le_trans h.le hs0L
      · exact hs0L
    exact stage_back fp up o si back S1 hr hunit hinb hs1L IHb

/--
Claim C1 (amended): on a valid level — unit side normals, BSP
half-space containment (`NodeWF`), non-negative ball radius — with a
static body frame (`w = 0`) and a time budget within the sentinel, the
earliest contact time returned by the pruned BSP traversal
`sol_test_node` equals that of the brute-force traversal
`sol_test_node_all` over every lump of the subtree.  For a moving
frame (`w ≠ 0`) pruning can hide a real collision, because
`sol_test_fore`/`sol_test_back` ignore `w`; see the counterexample.
-/
theorem bsp_pruning_safe (fp : SFile) (up : SBall) (o : Vec3) (dt : ℝ) (n : SNode)
    (hr : 0 ≤ up.r) (hdt : dt ≤ LARGE)
    (hunit : ∀ i : ℕ, v_dot (sideAt fp i).n (sideAt fp i).n = 1)
    (hwf : NodeWF fp n) :
    (sol_test_node up fp dt n o vzero).1 = (sol_test_node_all up fp dt n o vzero).1 := by
  rw [node_equiv fp up o hr hunit n hwf dt hdt]

def cexSide0 : SSide := ⟨(1, 0, 0), 0⟩

def cexSide1 : SSide := ⟨(-1, 0, 0), -2⟩

def cexLump : SLump := ⟨false, 0, 0, 0, 0, 0, 1⟩

def cexForeNode : SNode := SNode.mk 0 0 1 SNode.nil SNode.nil

def cexRoot : SNode := SNode.mk 0 0 0 cexForeNode SNode.nil

def cexFile : SFile := ⟨[], [], [cexSide0, cexSide1], [1], [cexLump],
  fun _ => cexPath0, 0, [], [], [], []⟩

def cexBall : SBall := ⟨((1,0,0), (0,1,0), (0,0,1)), (-5, 0, 0), vzero, 1, vzero,
  ((1,0,0), (0,1,0), (0,0,1)), vzero⟩

def cexW : Vec3 := (-10, 0, 0)

/-- The counterexample level has unit side normals. -/
theorem cex_unit_normals :
    ∀ i : ℕ, v_dot (sideAt cexFile i).n (sideAt cexFile i).n = 1 := by
  intro i
  match i with
  | 0 => norm_num [sideAt, cexFile, cexSide0, v_dot, List.getD]
  | 1 => norm_num [sideAt, cexFile, cexSide1, v_dot, List.getD]
  | (k + 2) => norm_num [sideAt, cexFile, defSide, v_dot, List.getD]

/-- The counterexample level is a valid BSP: its single fore lump
(the slab `x ≥ 2`) lies in the fore half-space `x ≥ 0` of the root's
splitting plane. -/
theorem cex_wf : NodeWF cexFile cexRoot := by
  simp only [cexRoot, cexForeNode, NodeWF, NodeIn]
  refine ⟨⟨?_, trivial, trivial⟩, trivial, ⟨trivial, trivial, trivial, trivial⟩, trivial⟩
  intro i hi
  have hi0 : i = 0 := by
    have : i < 1 := hi
    omega
  subst hi0
  have hlp : lumpAt cexFile (0 + 0) = cexLump := rfl
  rw [hlp]
  refine ⟨?_, ?_, ?_⟩
  · intro j hj
    have : j < 0 := hj
    omega
  · intro j hj
    have : j < 0 := hj
    omega
  · intro x hx
    have h0 := hx 0 (by norm_num [cexLump])
    have hiv : sideAt cexFile (ivAt cexFile (cexLump.s0 + 0)) = cexSide1 := rfl
    rw [hiv] at h0
    simp only [cexSide1, v_dot] at h0
    have hside0 : sideAt cexFile 0 = cexSide0 := rfl
    simp only [foreHalf, hside0, cexSide0, v_dot]
    nlinarith [h0]

/-- Evaluation of the moving slab's plane test in the counterexample:
contact at `t = 3/5`. -/
theorem cex_vside : v_side vzero cexW cexSide1.n cexSide1.d
    cexBall.p cexBall.v cexBall.r = (3/5, ((-4:ℝ), (0:ℝ), (0:ℝ))) := by
  norm_num [v_side, v_dot, v_mad, vzero, cexSide1, cexBall, cexW, Prod.ext_iff]

/-- The side test of the counterexample lump accepts the candidate. -/
theorem cex_stside : sol_test_side 1 cexBall cexFile cexLump 1 vzero cexW =
    (3/5, ((-4:ℝ), (0:ℝ), (0:ℝ))) := by
  have hside_at : sideAt cexFile 1 = cexSide1 := rfl
  simp only [sol_test_side, hside_at, cex_vside]
  rw [if_neg ?_]
  rintro ⟨-, i, hi, hne, -⟩
  have hi1 : i < 1 := hi
  have hi0 : i = 0 := by omega
  subst hi0
  exact hne rfl

/-- The counterexample lump's earliest contact is `3/5`. -/
theorem cex_lump_eval : sol_test_lump 1 cexBall cexFile cexLump vzero cexW =
    (3/5, ((-4:ℝ), (0:ℝ), (0:ℝ))) := by
  have hfl : cexLump.fl = false := rfl
  have hvc : cexLump.vc = 0 := rfl
  have hec : cexLump.ec = 0 := rfl
  have hsc : cexLump.sc = 1 := rfl
  have hs0f : cexLump.s0 = 0 := rfl
  have hiv : ivAt cexFile 0 = 1 := rfl
  have hr : (0:ℝ) < cexBall.r := by norm_num [cexBall]
  norm_num [sol_test_lump, hfl, hvc, hec, hsc, hs0f, hiv, hr, tmin,
    List.range_succ, List.range_zero, cex_stside]

/-- The root's fore classification fails for the counterexample ball. -/
theorem cex_fore_test : ¬ sol_test_fore 1 cexBall (sideAt cexFile 0) vzero cexW := by
  have hside0 : sideAt cexFile 0 = cexSide0 := rfl
  norm_num [sol_test_fore, hside0, cexSide0, cexBall, v_dot, v_sub, v_mad, vzero]

/--
Claim C1 counterexample: on a valid level (unit normals, BSP
containment, radius 1, budget 1 within the sentinel), a body frame
moving at `w = (−10,0,0)` drives the slab `x ≥ 2` into the stationary
ball at `x = −5`: brute force finds the contact at `t = 3/5`, but the
pruned traversal skips the fore subtree (the plane-side tests ignore
`w`) and reports no contact (`t = 1`, the full budget).
-/
theorem bsp_pruning_counterexample :
    (sol_test_node cexBall cexFile 1 cexRoot vzero cexW).1 = 1 ∧
    (sol_test_node_all cexBall cexFile 1 cexRoot vzero cexW).1 = 3/5 ∧
    NodeWF cexFile cexRoot ∧
    (∀ i : ℕ, v_dot (sideAt cexFile i).n (sideAt cexFile i).n = 1) ∧
    0 ≤ cexBall.r ∧ (1:ℝ) ≤ LARGE ∧ (1:ℝ) ≠ 3/5 := by
  refine ⟨?_, ?_, cex_wf, cex_unit_normals, by norm_num [cexBall],
    by norm_num [LARGE], by norm_num⟩
  · norm_num [sol_test_node, cexRoot, tmin, List.range_zero, cex_fore_test]
  · have hlp : lumpAt cexFile 0 = cexLump := rfl
    norm_num [sol_test_node_all, cexRoot, cexForeNode, tmin, List.range_succ,
      List.range_zero, hlp, cex_lump_eval]

/-- Witness for C1: the same valid level with a static frame, where
the theorem applies and both traversals agree. -/
theorem bsp_pruning_safe_witness :
    0 ≤ cexBall.r ∧ (1:ℝ) ≤ LARGE ∧
    (∀ i : ℕ, v_dot (sideAt cexFile i).n (sideAt cexFile i).n = 1) ∧
    NodeWF cexFile cexRoot ∧
    (sol_test_node cexBall cexFile 1 cexRoot vzero vzero).1 =
      (sol_test_node_all cexBall cexFile 1 cexRoot vzero vzero).1 := by
  have h1 : 0 ≤ cexBall.r := by norm_num [cexBall]
  have h2 : (1:ℝ) ≤ LARGE := by norm_num [LARGE]
  exact ⟨h1, h2, cex_unit_normals, cex_wf,
    bsp_pruning_safe cexFile cexBall vzero 1 cexRoot h1 h2 cex_unit_normals cex_wf⟩

/-- A flag write into the path store (`fp->pv[i].f = v` of the C). -/
def swchWrite (pf : ℕ → SPath) (i : ℕ) (v : Bool) : ℕ → SPath :=
  fun j => if j = i then { pf j with f := v } else pf j

/--
The tortoise-and-hare cycle broadcast of solid_phys.c (the shared
do-while of `sol_swch_step` and `sol_swch_test`): both cursors write
the value `v`, the slow cursor advances one successor, the fast cursor
two; the loop exits when they coincide.  The C loop has no fuel; the
embedding's fuel is an upper bound on iterations, and the returned
boolean records that the loop exited by cursor coincidence within the
fuel (the cycle invariant guarantees this, see
`swch_broadcast_covers`).
-/
def swchLoop (v : Bool) : ℕ → (ℕ → SPath) → ℕ → ℕ → ((ℕ → SPath) × Bool)
  | 0, pf, _, _ => (pf, false)
  | fuel + 1, pf, pi, pj =>
    let pf1 := swchWrite pf pi v
    let pf2 := swchWrite pf1 pj v
    let pi' := (pf2 pi).pi
    let pj' := (pf2 ((pf2 pj).pi)).pi
    if pi' = pj' then (pf2, true) else swchLoop v fuel pf2 pi' pj'

theorem swchWrite_pi (pf : ℕ → SPath) (i : ℕ) (v : Bool) (j : ℕ) :
    (swchWrite pf i v j).pi = (pf j).pi := by
  unfold swchWrite
  split_ifs <;> rfl

/-- On a cycle of minimal period `N`, the two cursors meet exactly at
multiples of `N`: at `k = N` they coincide. -/
theorem cycle_meet_at (succ : ℕ → ℕ) (s N : ℕ) (hcyc : succ^[N] s = s) :
    succ^[N] s = succ^[2 * N] s := by
  rw [two_mul, Function.iterate_add_apply, hcyc]
  exact hcyc.symm

/-- On a cycle of minimal period `N`, the cursors do not meet at any
step `k` with `0 < k < N`. -/
theorem cycle_meet (succ : ℕ → ℕ) (s N : ℕ)
    (hcyc : succ^[N] s = s)
    (hmin : ∀ k : ℕ, k < N → 0 < k → succ^[k] s ≠ s) :
    ∀ k : ℕ, 0 < k → k < N → succ^[k] s ≠ succ^[2 * k] s := by
  intro k hk0 hkN heq
  set y := succ^[k] s with hy
  have h1 : succ^[k] y = y := by
    rw [hy, ← Function.iterate_add_apply, ← two_mul, ← heq]
  have h2 : succ^[N] y = y := by
    rw [hy, ← Function.iterate_add_apply, Nat.add_comm N k,
      Function.iterate_add_apply, hcyc]
  have hp1 : Function.IsPeriodicPt succ k y := h1
  have hp2 : Function.IsPeriodicPt succ N y := h2
  have hgcd : succ^[Nat.gcd k N] y = y := hp1.gcd hp2
  have hsy : succ^[N - k] y = s := by
    rw [hy, ← Function.iterate_add_apply, Nat.sub_add_cancel hkN.le, hcyc]
  have hgs : succ^[Nat.gcd k N] s = s := by
    conv_lhs => rw [← hsy]
    rw [← Function.iterate_add_apply, Nat.add_comm (Nat.gcd k N) (N - k),
      Function.iterate_add_apply, hgcd, hsy]
  have hgpos : 0 < Nat.gcd k N := Nat.gcd_pos_of_pos_left _ hk0
  have hgN : Nat.gcd k N < N :=
    lt_of_le_of_lt (Nat.le_of_dvd hk0 (Nat.gcd_dvd_left k N)) hkN
  exact hmin _ hgN hgpos hgs

/-- The loop invariant of the tortoise-and-hare broadcast: entering
iteration `j+1` with the slow cursor at `succ^[j] s`, the fast cursor
at `succ^[2j] s`, fuel `N − j`, successor structure intact, and the
first `j` cycle points already written, the loop terminates with the
successor structure intact and every cycle point written. -/
theorem swchLoop_go (succ : ℕ → ℕ) (v : Bool) (s N : ℕ)
    (hcyc : succ^[N] s = s)
    (hmin : ∀ k : ℕ, k < N → 0 < k → succ^[k] s ≠ s) :
    ∀ (fuel j : ℕ) (pf : ℕ → SPath),
      j + fuel = N → j < N →
      (∀ x, (pf x).pi = succ x) →
      (∀ i : ℕ, i < j → (pf (succ^[i] s)).f = v) →
      (swchLoop v fuel pf (succ^[j] s) (succ^[2 * j] s)).2 = true ∧
      (∀ x, ((swchLoop v fuel pf (succ^[j] s) (succ^[2 * j] s)).1 x).pi = succ x) ∧
      (∀ i : ℕ, i < N →
        ((swchLoop v fuel pf (succ^[j] s) (succ^[2 * j] s)).1 (succ^[i] s)).f = v) := by
  intro fuel
  induction fuel with
  | zero => intro j pf hjf hjN _ _; omega
  | succ fuel ih =>
    intro j pf hjf hjN hinv hflags
    have hpi' : (swchWrite (swchWrite pf (succ^[j] s) v) (succ^[2 * j] s) v
        (succ^[j] s)).pi = succ^[j + 1] s := by
      rw [swchWrite_pi, swchWrite_pi, hinv, Function.iterate_succ_apply']
    have hpj' : (swchWrite (swchWrite pf (succ^[j] s) v) (succ^[2 * j] s) v
        ((swchWrite (swchWrite pf (succ^[j] s) v) (succ^[2 * j] s) v
          (succ^[2 * j] s)).pi)).pi = succ^[2 * (j + 1)] s := by
      simp only [swchWrite_pi, hinv]
      have h2j : 2 * (j + 1) = 2 * j + 1 + 1 := by ring
      rw [h2j, Function.iterate_succ_apply', Function.iterate_succ_apply']
    have hpf2pi : ∀ x, ((swchWrite (swchWrite pf (succ^[j] s) v)
        (succ^[2 * j] s) v) x).pi = succ x := by
      intro x
      rw [swchWrite_pi, swchWrite_pi]
      exact hinv x
    have hflags2 : ∀ i : ℕ, i < j + 1 →
        ((swchWrite (swchWrite pf (succ^[j] s) v) (succ^[2 * j] s) v)
          (succ^[i] s)).f = v := by
      intro i hi
      simp only [swchWrite]
      by_cases h1 : succ^[i] s = succ^[2 * j] s
      · rw [if_pos h1]
      · rw [if_neg h1]
        by_cases h2 : succ^[i] s = succ^[j] s
        · rw [if_pos h2]
        · rw [if_neg h2]
          have hij : i < j ∨ i = j := by omega
          rcases hij with h | h
          · exact hflags i h
          · subst h
            exact absurd rfl h2
    by_cases hj1 : j + 1 = N
    · have hstop : succ^[j + 1] s = succ^[2 * (j + 1)] s := by
        rw [hj1]
        exact cycle_meet_at succ s N hcyc
      simp only [swchLoop]
      rw [hpi', hpj', if_pos hstop]
      exact ⟨rfl, hpf2pi, fun i hi => hflags2 i (by omega)⟩
    · have hne : succ^[j + 1] s ≠ succ^[2 * (j + 1)] s :=
        cycle_meet succ s N hcyc hmin (j + 1) (by omega) (by omega)
      simp only [swchLoop]
      rw [hpi', hpj', if_neg hne]
      exact ih (j + 1) _ (by omega) (by omega) hpf2pi hflags2

/--
Claim C3: for a path cycle of length `N ≥ 1` (the successor map
returns to the start first after exactly `N` steps), the
tortoise-and-hare broadcast — as run by `sol_swch_step` on countdown
expiry and by `sol_swch_test` on ball entry — terminates within `N`
iterations (fuel `N` suffices, so the iteration count is O(N)) and
writes the new flag value to every path point on the cycle.
-/
theorem swch_broadcast_covers (pf : ℕ → SPath) (v : Bool) (s N : ℕ)
    (hN : 0 < N)
    (hcyc : (fun j => (pf j).pi)^[N] s = s)
    (hmin : ∀ k : ℕ, k < N → 0 < k → (fun j => (pf j).pi)^[k] s ≠ s) :
    (swchLoop v N pf s s).2 = true ∧
    ∀ k : ℕ, k < N →
      ((swchLoop v N pf s s).1 ((fun j => (pf j).pi)^[k] s)).f = v := by
  have h := swchLoop_go (fun j => (pf j).pi) v s N hcyc hmin N 0 pf
    (by omega) hN (fun x => rfl) (fun i hi => absurd hi (Nat.not_lt_zero i))
  simp only [Function.iterate_zero_apply, Nat.mul_zero] at h
  exact ⟨h.1, h.2.2⟩

/-- A concrete three-point path cycle (0 → 1 → 2 → 0) for exercising
the broadcast loop. -/
def w3Path (j : ℕ) : SPath := ⟨vzero, 1, (j + 1) % 3, false, false⟩

theorem swch_broadcast_covers_witness :
    ((0 < 3 ∧ (fun j => (w3Path j).pi)^[3] 0 = 0) ∧
      ∀ k : ℕ, k < 3 → 0 < k → (fun j => (w3Path j).pi)^[k] 0 ≠ 0) ∧
    (swchLoop true 3 w3Path 0 0).2 = true ∧
    ∀ k : ℕ, k < 3 →
      ((swchLoop true 3 w3Path 0 0).1 ((fun j => (w3Path j).pi)^[k] 0)).f = true :=
  ⟨⟨⟨by decide, by decide⟩, by decide⟩,
    swch_broadcast_covers w3Path true 0 3 (by decide) (by decide) (by decide)⟩

/-- Modelled from the spec: the composition of `m_rot` and `m_vxfm` of
vec3.h — rotation of `x` about the unit axis `a` by angle `ang`
(Rodrigues' formula). -/
def m_rot_apply (a : Vec3) (ang : ℝ) (x : Vec3) : Vec3 :=
  v_add (v_add (v_scl x (Real.cos ang)) (v_scl (v_crs a x) (Real.sin ang)))
    (v_scl a (v_dot a x * (1 - Real.cos ang)))

/-- `sol_rotate` of solid_phys.c: integrate the rotation of the basis
`e` under angular velocity `w` through `dt`, then re-orthonormalize
via cross products. -/
def sol_rotate (e : Vec3 × Vec3 × Vec3) (w : Vec3) (dt : ℝ) : Vec3 × Vec3 × Vec3 :=
  if 0 < v_len w then
    let a := v_nrm w
    let f0 := m_rot_apply a (v_len w * dt) e.1
    let f1 := m_rot_apply a (v_len w * dt) e.2.1
    let f2 := m_rot_apply a (v_len w * dt) e.2.2
    let e2 := v_crs f0 f1
    let e1 := v_crs f2 f0
    let e0 := v_crs f1 f2
    (v_nrm e0, v_nrm e1, v_nrm e2)
  else e

/-- `sol_bounce` of solid_phys.c: the new linear and angular
velocities of a ball bouncing at impact point `q` against an object
moving at `w`, together with the returned impact energy
`fabsf(v_dot(n, d))`.  The `dt` argument of the C function is unused
there as well. -/
def sol_bounce (up : SBall) (q w : Vec3) (dt : ℝ) : SBall × ℝ :=
  let p := up.p
  let v := up.v
  let r := v_sub p q
  let d := v_sub v w
  let n := v_nrm r
  let w1 := v_scl (v_crs d r) (-1 / (up.r * up.r))
  let vn := v_dot v n
  let wn := v_dot w n
  let v1 := v_mad v n (1.7 * (wn - vn))
  let p1 := v_mad q n up.r
  ({ up with p := p1, v := v1, w := w1 }, |v_dot n d|)

/-- `sol_pendulum` of solid_phys.c: the pendulum basis/angular
velocity update under ball acceleration `a` and gravity `g`. -/
def sol_pendulum (up : SBall) (a g : Vec3) (dt : ℝ) : SBall :=
  let m : ℝ := 5
  let ka : ℝ := 0.5
  let kd : ℝ := 0.995
  let A := v_mad (v_scl a ka) g (-dt)
  let F := v_scl A (m / dt)
  let r := v_scl up.E.2.1 (-up.r)
  let T := if 0 < |v_dot r F| then v_crs F r else vzero
  let W1 := v_scl (v_mad up.W T dt) kd
  let E1 := sol_rotate up.E W1 dt
  let v := v_mad up.v E1.2.1 (v_dot up.v E1.2.1)
  let Y0 := v_crs v E1.2.2
  let Y := v_scl E1.2.1 (2 * v_dot Y0 E1.2.1)
  let E2 := sol_rotate E1 Y dt
  { up with E := E2, W := W1 }

/-- The per-switch transition of `sol_swch_step` of solid_phys.c,
threading the path store: a running countdown is decremented; on
expiry the default flag `f0` is broadcast around the switch's path
cycle.  The unbounded C do-while is given fuel `pc` (the path count):
on a valid level a cycle's length is at most `pc`, which suffices
(`swch_broadcast_covers`). -/
def sol_swch_step1 (pc : ℕ) (dt : ℝ) (st : (ℕ → SPath) × List SSwch) (xp : SSwch) :
    (ℕ → SPath) × List SSwch :=
  if 0 < xp.t then
    let t1 := xp.t - dt
    if t1 ≤ 0 then
      ((swchLoop xp.f0 pc st.1 xp.pi xp.pi).1,
        st.2 ++ [{ xp with t := t1, f := xp.f0 }])
    else (st.1, st.2 ++ [{ xp with t := t1 }])
  else (st.1, st.2 ++ [xp])

/-- `sol_swch_step` of solid_phys.c: advance every switch by `dt`. -/
def sol_swch_step (fp : SFile) (dt : ℝ) : SFile :=
  let r := fp.xv.foldl (sol_swch_step1 fp.pc dt) (fp.pv, [])
  { fp with pv := r.1, xv := r.2 }

/-- The per-ball transition of `sol_ball_step` of solid_phys.c:
advance the position by the velocity and rotate the orientation basis
by the angular velocity. -/
def sol_ball_step1 (dt : ℝ) (up : SBall) : SBall :=
  { up with p := v_mad up.p up.v dt, e := sol_rotate up.e up.w dt }

/-- `sol_ball_step` of solid_phys.c: advance every ball by `dt`. -/
def sol_ball_step (fp : SFile) (dt : ℝ) : SFile :=
  { fp with uv := fp.uv.map (sol_ball_step1 dt) }

/-- Write ball `ui` back into the level (the C mutates `fp->uv[ui]` in
place). -/
def setBall (fp : SFile) (ui : ℕ) (u : SBall) : SFile :=
  { fp with uv := fp.uv.set ui u }

/--
The collision sub-stepping loop of `sol_step` (lines 780–792 of
solid_phys.c): while fuel remains, time remains, and the earliest
contact over the level precedes the remaining time, advance bodies,
switches and balls to the contact, consume the elapsed time, bounce
ball `ui` at the contact, and keep the largest impact energy.  The C
counter `c = 16` is the fuel; the returned naturals are the remaining
time budget, the running maximum energy, and the number of contacts
resolved.
-/
def sol_step_loop (ui : ℕ) : ℕ → SFile → ℝ → ℝ → ℕ → SFile × ℝ × ℝ × ℕ
  | 0, fp, tt, b, count => (fp, tt, b, count)
  | c + 1, fp, tt, b, count =>
    let res := sol_test_file tt (ballAt fp ui) fp
    if 0 < tt ∧ res.1 < tt then
      let nt := res.1
      let fp1 := sol_body_step fp nt
      let fp2 := sol_swch_step fp1 nt
      let fp3 := sol_ball_step fp2 nt
      let bounce := sol_bounce (ballAt fp3 ui) res.2.1 res.2.2 nt
      let fp4 := setBall fp3 ui bounce.1
      let b1 := if b < bounce.2 then bounce.2 else b
      sol_step_loop ui c fp4 (tt - nt) b1 (count + 1)
    else (fp, tt, b, count)

/--
The pre-collision phase of `sol_step` (lines 750–778 of solid_phys.c):
probe for resting contact with the ball's velocity replaced by gravity
(the probe ball is passed to `sol_test_file`, which reads the ball
only through its parameter); on a resting contact aligned with
gravity, apply friction (possibly stopping the ball and bumping the
counter `m`); otherwise integrate gravity into the velocity.  Returns
the updated ball and counter.
-/
def sol_step_pre (fp : SFile) (g : Vec3) (dt : ℝ) (ui : ℕ) (m : Option ℕ) :
    SBall × Option ℕ :=
  let up := ballAt fp ui
  let v := up.v
  let probe := { up with v := g }
  let res := sol_test_file dt probe fp
  if m.isSome ∧ res.1 < 0.0005 then
    let P := res.2.1
    let V := res.2.2
    let r := v_sub P up.p
    let d := v_dot r g / (v_len r * v_len g)
    if 0.999 < d then
      let e := v_len v - dt
      if 0 < e then
        let v1 := v_scl (v_nrm v) e
        let w1 := v_scl (v_crs (v_sub V v1) r) (-1 / (up.r * up.r))
        ({ up with v := v1, w := w1 }, m)
      else ({ up with v := vzero }, m.map (fun k => k + 1))
    else ({ up with v := v_mad v g dt }, m)
  else ({ up with v := v_mad v g dt }, m)

/--
`sol_step` of solid_phys.c, with the resolved-contact count exposed as
the fourth component: under the ball-index guard `ui < fp->uc`, run
the pre-collision phase, the 16-fuel sub-stepping loop, the
unconditional advancement of bodies, switches and balls by the
remaining time, and the pendulum update; out of range, nothing runs
and the level is returned unchanged with zero energy.
-/
def sol_step_inner (fp : SFile) (g : Vec3) (dt : ℝ) (ui : ℕ) (m : Option ℕ) :
    SFile × ℝ × Option ℕ × ℕ :=
  if ui < fp.uv.length then
    let a := (ballAt fp ui).v
    let pre := sol_step_pre fp g dt ui m
    let fp1 := setBall fp ui pre.1
    let loop := sol_step_loop ui 16 fp1 dt 0 0
    let fp2 := loop.1
    let tt := loop.2.1
    let b := loop.2.2.1
    let fp3 := sol_body_step fp2 tt
    let fp4 := sol_swch_step fp3 tt
    let fp5 := sol_ball_step fp4 tt
    let up1 := ballAt fp5 ui
    let up2 := sol_pendulum up1 (v_sub up1.v a) g dt
    (setBall fp5 ui up2, b, pre.2, loop.2.2.2)
  else (fp, 0, m, 0)

/-- `sol_step` of solid_phys.c: the returned level state, impact
energy, and friction counter. -/
def sol_step (fp : SFile) (g : Vec3) (dt : ℝ) (ui : ℕ) (m : Option ℕ) :
    SFile × ℝ × Option ℕ :=
  let r := sol_step_inner fp g dt ui m
  (r.1, r.2.1, r.2.2.1)

/-- The number of contacts the sub-stepping loop of `sol_step`
resolves during one call. -/
def sol_step_bounces (fp : SFile) (g : Vec3) (dt : ℝ) (ui : ℕ) (m : Option ℕ) : ℕ :=
  (sol_step_inner fp g dt ui m).2.2.2

/-- The sub-stepping loop's accounting: the contact count grows by at
most the fuel and never shrinks, the running maximum energy stays
non-negative, and if no iteration ran the energy is unchanged. -/
theorem sol_step_loop_spec (ui : ℕ) :
    ∀ (c : ℕ) (fp : SFile) (tt b : ℝ) (count : ℕ), 0 ≤ b →
      (sol_step_loop ui c fp tt b count).2.2.2 ≤ count + c ∧
      count ≤ (sol_step_loop ui c fp tt b count).2.2.2 ∧
      0 ≤ (sol_step_loop ui c fp tt b count).2.2.1 ∧
      ((sol_step_loop ui c fp tt b count).2.2.2 = count →
        (sol_step_loop ui c fp tt b count).2.2.1 = b) := by
  intro c
  induction c with
  | zero =>
    intro fp tt b count hb
    exact ⟨Nat.le_refl _, Nat.le_refl _, hb, fun _ => rfl⟩
  | succ c ih =>
    intro fp tt b count hb
    simp only [sol_step_loop]
    by_cases hcond : 0 < tt ∧ (sol_test_file tt (ballAt fp ui) fp).1 < tt
    · rw [if_pos hcond]
      have hb1 : (0 : ℝ) ≤
          if b < (sol_bounce
              (ballAt (sol_ball_step (sol_swch_step (sol_body_step fp
                (sol_test_file tt (ballAt fp ui) fp).1)
                (sol_test_file tt (ballAt fp ui) fp).1)
                (sol_test_file tt (ballAt fp ui) fp).1) ui)
              (sol_test_file tt (ballAt fp ui) fp).2.1
              (sol_test_file tt (ballAt fp ui) fp).2.2
              (sol_test_file tt (ballAt fp ui) fp).1).2
          then (sol_bounce
              (ballAt (sol_ball_step (sol_swch_step (sol_body_step fp
                (sol_test_file tt (ballAt fp ui) fp).1)
                (sol_test_file tt (ballAt fp ui) fp).1)
                (sol_test_file tt (ballAt fp ui) fp).1) ui)
              (sol_test_file tt (ballAt fp ui) fp).2.1
              (sol_test_file tt (ballAt fp ui) fp).2.2
              (sol_test_file tt (ballAt fp ui) fp).1).2
          else b := by
        split_ifs with hlt
        · exact le_of_lt (lt_of_le_of_lt hb hlt)
        · exact hb
      obtain ⟨h1, h2, h3, h4⟩ := ih _ _ _ (count + 1) hb1
      exact ⟨by omega, by omega, h3, fun hc => absurd hc (by omega)⟩
    · rw [if_neg hcond]
      exact ⟨Nat.le_add_right _ _, Nat.le_refl _, hb, fun _ => rfl⟩

/--
Claim C4: for every level, ball index, gravity vector and time budget,
the collision sub-stepping loop of `sol_step` resolves at most 16
contacts before exiting (the C counter `c = 16` bounds the
iterations), so `sol_step` always returns; the remaining time is then
advanced unconditionally (`sol_step_inner` applies the post-loop body,
switch and ball advancement with no further collision checks).
-/
theorem sol_step_terminates (fp : SFile) (g : Vec3) (dt : ℝ) (ui : ℕ)
    (m : Option ℕ) : sol_step_bounces fp g dt ui m ≤ 16 := by
  unfold sol_step_bounces sol_step_inner
  by_cases h : ui < fp.uv.length
  · rw [if_pos h]
    have hs := (sol_step_loop_spec ui 16
      (setBall fp ui (sol_step_pre fp g dt ui m).1) dt 0 0 le_rfl).1
    exact hs
  · rw [if_neg h]
    exact Nat.zero_le 16

/--
Claim C9: the impact energy returned by `sol_step` is non-negative,
and it is exactly 0 whenever the sub-stepping loop resolved no contact
during the call.
-/
theorem sol_step_energy (fp : SFile) (g : Vec3) (dt : ℝ) (ui : ℕ)
    (m : Option ℕ) :
    0 ≤ (sol_step fp g dt ui m).2.1 ∧
    (sol_step_bounces fp g dt ui m = 0 → (sol_step fp g dt ui m).2.1 = 0) := by
  unfold sol_step sol_step_bounces sol_step_inner
  by_cases h : ui < fp.uv.length
  · rw [if_pos h]
    have hs := sol_step_loop_spec ui 16
      (setBall fp ui (sol_step_pre fp g dt ui m).1) dt 0 0 le_rfl
    exact ⟨hs.2.2.1, fun hc => hs.2.2.2 hc⟩
  · rw [if_neg h]
    exact ⟨le_rfl, fun _ => rfl⟩

/-- A minimal one-ball level with no bodies, switches or items. -/
def wStepFile : SFile := ⟨[], [], [], [], [], w3Path, 3, [], [], [defBall], []⟩

theorem sol_step_energy_witness :
    0 ≤ (sol_step wStepFile vzero 1 0 none).2.1 ∧
    (sol_step_bounces wStepFile vzero 1 0 none = 0 →
      (sol_step wStepFile vzero 1 0 none).2.1 = 0) :=
  sol_step_energy wStepFile vzero 1 0 none

/--
Claim C10: for a ball index not below the level's ball count,
`sol_step` returns zero energy, an unchanged friction counter, and the
level state untouched — the guard `ui < fp->uc` encloses the entire
body of the function, including the unconditional post-loop
advancement of bodies and switches.
-/
theorem sol_step_out_of_range (fp : SFile) (g : Vec3) (dt : ℝ) (ui : ℕ)
    (m : Option ℕ) (h : fp.uv.length ≤ ui) :
    sol_step fp g dt ui m = (fp, 0, m) := by
  unfold sol_step sol_step_inner
  rw [if_neg (not_lt.mpr h)]

theorem sol_step_out_of_range_witness :
    wStepFile.uv.length ≤ 5 ∧
    sol_step wStepFile vzero 1 5 none = (wStepFile, 0, none) :=
  ⟨by decide, sol_step_out_of_range wStepFile vzero 1 5 none (by decide)⟩

/-- Default item record for out-of-range accesses. -/
def defItem : SItem := ⟨vzero, 0⟩

def itemAt (fp : SFile) (i : ℕ) : SItem := fp.hv.getD i defItem

/-- The per-item acceptance condition of the scan in `sol_item_test`
(line 824 of solid_phys.c): the slot is occupied and the item center
lies within `ball_r + item_r` of the ball center. -/
def itemHitP (p : Vec3) (br ir : ℝ) (ip : SItem) : Prop :=
  ip.t ≠ ITEM_NONE ∧ v_len (v_sub p ip.p) < br + ir

/-- The scan of `sol_item_test` of solid_phys.c from index `hi`
onward: the first accepted item, in storage order. -/
def sol_item_find (p : Vec3) (br ir : ℝ) : List SItem → ℕ → Option ℕ
  | [], _ => none
  | ip :: rest, hi =>
    if itemHitP p br ir ip then some hi
    else sol_item_find p br ir rest (hi + 1)

/-- `sol_item_test` of solid_phys.c: scan the item array in storage
order against ball 0 (`fp->uv->p`); the C returns the matching item's
pointer, embedded as the item's index, with `none` for NULL. -/
def sol_item_test (fp : SFile) (item_r : ℝ) : Option ℕ :=
  sol_item_find (ballAt fp 0).p (ballAt fp 0).r item_r fp.hv 0

/-- The acceptance condition at a level item index. -/
def ItemHit (fp : SFile) (item_r : ℝ) (i : ℕ) : Prop :=
  itemHitP (ballAt fp 0).p (ballAt fp 0).r item_r (itemAt fp i)

/-- The scan returns the index of the first accepted item after the
start offset, and none exactly when no item is accepted. -/
theorem sol_item_find_spec (p : Vec3) (br ir : ℝ) :
    ∀ (l : List SItem) (k : ℕ),
      (∀ hi : ℕ, sol_item_find p br ir l k = some hi ↔
        ∃ n : ℕ, hi = k + n ∧ n < l.length ∧
          itemHitP p br ir (l.getD n defItem) ∧
          ∀ j : ℕ, j < n → ¬ itemHitP p br ir (l.getD j defItem)) ∧
      (sol_item_find p br ir l k = none ↔
        ∀ j : ℕ, j < l.length → ¬ itemHitP p br ir (l.getD j defItem)) := by
  intro l
  induction l with
  | nil =>
    intro k
    constructor
    · intro hi
      simp [sol_item_find]
    · simp [sol_item_find]
  | cons ip rest ih =>
    intro k
    by_cases hh : itemHitP p br ir ip
    · constructor
      · intro hi
        simp only [sol_item_find, if_pos hh]
        constructor
        · intro he
          have hk : k = hi := Option.some.inj he
          refine ⟨0, by omega, by simp, ?_, ?_⟩
          · simpa [List.getD_cons_zero] using hh
          · intro j hj
            exact absurd hj (Nat.not_lt_zero j)
        · rintro ⟨n, h1, h2, h3, h4⟩
          rcases Nat.eq_zero_or_pos n with hn | hn
          · subst hn
            exact congrArg some (by omega)
          · exact absurd (by simpa [List.getD_cons_zero] using hh) (h4 0 hn)
      · constructor
        · intro he
          rw [sol_item_find, if_pos hh] at he
          exact absurd he (by simp)
        · intro hAll
          exact absurd (by simpa [List.getD_cons_zero] using hh)
            (hAll 0 (by simp))
    · have heq : sol_item_find p br ir (ip :: rest) k
          = sol_item_find p br ir rest (k + 1) := by
        rw [sol_item_find, if_neg hh]
      obtain ⟨ihS, ihN⟩ := ih (k + 1)
      constructor
      · intro hi
        rw [heq, ihS hi]
        constructor
        · rintro ⟨n, h1, h2, h3, h4⟩
          refine ⟨n + 1, by omega, by simpa using Nat.succ_lt_succ h2, ?_, ?_⟩
          · simpa [List.getD_cons_succ] using h3
          · intro j hj
            rcases Nat.eq_zero_or_pos j with hj0 | hj0
            · subst hj0
              simpa [List.getD_cons_zero] using hh
            · obtain ⟨j0, rfl⟩ := Nat.exists_eq_add_of_lt hj0
              have := h4 j0 (by omega)
              simpa [List.getD_cons_succ, Nat.add_comm] using this
        · rintro ⟨n, h1, h2, h3, h4⟩
          rcases Nat.eq_zero_or_pos n with hn | hn
          · subst hn
            exact absurd (by simpa [List.getD_cons_zero] using h3) hh
          · obtain ⟨n0, rfl⟩ := Nat.exists_eq_add_of_lt hn
            refine ⟨n0, by omega, by simp at h2; omega, ?_, ?_⟩
            · have hn0 : (0 : ℕ) + n0 + 1 = n0 + 1 := by omega
              rw [hn0] at h3
              simpa [List.getD_cons_succ] using h3
            · intro j hj
              have := h4 (j + 1) (by omega)
              simpa [List.getD_cons_succ] using this
      · rw [heq, ihN]
        constructor
        · intro hAll j hj
          rcases Nat.eq_zero_or_pos j with hj0 | hj0
          · subst hj0
            simpa [List.getD_cons_zero] using hh
          · obtain ⟨j0, rfl⟩ := Nat.exists_eq_add_of_lt hj0
            have := hAll j0 (by simp at hj; omega)
            have hj1 : (0 : ℕ) + j0 + 1 = j0 + 1 := by omega
            rw [hj1]
            simpa [List.getD_cons_succ] using this
        · intro hAll j hj
          have := hAll (j + 1) (by simp; omega)
          simpa [List.getD_cons_succ] using this

/--
Claim C8 (corrected): `sol_item_test` scans the item array in storage
order and returns the index of the FIRST item whose slot is occupied
and whose center lies within `ball radius + item radius` of ball 0's
center — not the nearest such item — and returns none exactly when no
item is within that range.
-/
theorem sol_item_test_first (fp : SFile) (item_r : ℝ) :
    (∀ hi : ℕ, sol_item_test fp item_r = some hi ↔
      hi < fp.hv.length ∧ ItemHit fp item_r hi ∧
      ∀ j : ℕ, j < hi → ¬ ItemHit fp item_r j) ∧
    (sol_item_test fp item_r = none ↔
      ∀ j : ℕ, j < fp.hv.length → ¬ ItemHit fp item_r j) := by
  obtain ⟨hS, hN⟩ :=
    sol_item_find_spec (ballAt fp 0).p (ballAt fp 0).r item_r fp.hv 0
  constructor
  · intro hi
    rw [sol_item_test, hS hi]
    constructor
    · rintro ⟨n, h1, h2, h3, h4⟩
      have hn : n = hi := by omega
      subst hn
      exact ⟨h2, h3, h4⟩
    · rintro ⟨h2, h3, h4⟩
      exact ⟨hi, by omega, h2, h3, h4⟩
  · rw [sol_item_test, hN]
    exact Iff.rfl

def cexItem0 : SItem := ⟨(3 / 2, 0, 0), 1⟩

def cexItem1 : SItem := ⟨(1 / 2, 0, 0), 1⟩

/-- A level whose ball (radius 1, at the origin) is in pickup range of
both items: item 0 at distance 3/2, item 1 at distance 1/2. -/
def cexItemFile : SFile :=
  ⟨[], [], [], [], [], w3Path, 3, [], [], [defBall], [cexItem0, cexItem1]⟩

/--
Claim C8 counterexample: with item radius 1, both items of
`cexItemFile` are within range `2`, yet the scan returns item 0 (at
distance 3/2) although item 1 (at distance 1/2) is strictly nearer:
the returned item is in range but not the nearest in-range item.
-/
theorem sol_item_test_not_nearest :
    sol_item_test cexItemFile 1 = some 0 ∧
    ItemHit cexItemFile 1 1 ∧
    v_len (v_sub (ballAt cexItemFile 0).p (itemAt cexItemFile 1).p) <
      v_len (v_sub (ballAt cexItemFile 0).p (itemAt cexItemFile 0).p) := by
  have hb : (ballAt cexItemFile 0).p = vzero := rfl
  have hbr : (ballAt cexItemFile 0).r = 1 := rfl
  have hlen0 : v_len (v_sub vzero cexItem0.p) = 3 / 2 := by
    have hd : v_dot (v_sub vzero cexItem0.p) (v_sub vzero cexItem0.p)
        = (3 / 2) ^ 2 := by
      simp only [v_dot, v_sub, vzero, cexItem0]
      norm_num
    rw [v_len, hd, Real.sqrt_sq (by norm_num : (0 : ℝ) ≤ 3 / 2)]
  have hlen1 : v_len (v_sub vzero cexItem1.p) = 1 / 2 := by
    have hd : v_dot (v_sub vzero cexItem1.p) (v_sub vzero cexItem1.p)
        = (1 / 2) ^ 2 := by
      simp only [v_dot, v_sub, vzero, cexItem1]
      norm_num
    rw [v_len, hd, Real.sqrt_sq (by norm_num : (0 : ℝ) ≤ 1 / 2)]
  have hhit0 : itemHitP (ballAt cexItemFile 0).p (ballAt cexItemFile 0).r 1
      cexItem0 := by
    refine ⟨by decide, ?_⟩
    rw [hb, hbr, hlen0]
    norm_num
  refine ⟨?_, ?_, ?_⟩
  · show sol_item_find (ballAt cexItemFile 0).p (ballAt cexItemFile 0).r 1
      (cexItem0 :: [cexItem1]) 0 = some 0
    rw [sol_item_find, if_pos hhit0]
  · refine ⟨by decide, ?_⟩
    show v_len (v_sub (ballAt cexItemFile 0).p cexItem1.p)
      < (ballAt cexItemFile 0).r + 1
    rw [hb, hbr, hlen1]
    norm_num
  · show v_len (v_sub (ballAt cexItemFile 0).p cexItem1.p)
      < v_len (v_sub (ballAt cexItemFile 0).p cexItem0.p)
    rw [hb, hlen0, hlen1]
    norm_num

theorem sol_item_test_first_witness :
    sol_item_test cexItemFile 1 = some 0 := by
  refine ((sol_item_test_first cexItemFile 1).1 0).mpr ⟨by decide, ?_, ?_⟩
  · refine ⟨by decide, ?_⟩
    show v_len (v_sub (ballAt cexItemFile 0).p cexItem0.p)
      < (ballAt cexItemFile 0).r + 1
    have hb : (ballAt cexItemFile 0).p = vzero := rfl
    have hbr : (ballAt cexItemFile 0).r = 1 := rfl
    have hd : v_dot (v_sub vzero cexItem0.p) (v_sub vzero cexItem0.p)
        = (3 / 2) ^ 2 := by
      simp only [v_dot, v_sub, vzero, cexItem0]
      norm_num
    rw [hb, hbr, v_len, hd, Real.sqrt_sq (by norm_num : (0 : ℝ) ≤ 3 / 2)]
    norm_num
  · intro j hj
    exact absurd hj (Nat.not_lt_zero j)
